import Mathlib

/-!
Verification development for the Kafka → ClickHouse CDC bridge
(`scripts/kafka_to_clickhouse_bridge.py`).

The bridge consumes CDC messages from Kafka topics, filters out empty,
malformed and tombstone payloads, batches kept records per destination
table, and bulk-inserts batches into ClickHouse.  This file gives a
shallow embedding of the bridge's processing logic — the record filter,
the per-table batch accumulator, the polling loop of
`consume_and_load`, the `_insert_batch` sink writer, and the startup
logic of `main` — and proves (or refutes) the specification's claims
about it.
-/

namespace CDCBridge

/-! ### Python-value model for `json.loads` results

`json.loads` produces `dict` / `list` / `str` / `int` / `float` /
`bool` / `None`.  Integer literals give Python `int` (exact); literals
with a fraction or exponent give `float`, modelled here by their exact
decimal value `m * 10^e` (float rounding beyond 17 significant digits
is not modelled).  `NaN`, `Infinity`, `-Infinity` are accepted by
Python's parser and modelled by dedicated constructors. -/

inductive JsonValue where
  | null : JsonValue
  | bool (b : Bool) : JsonValue
  | num (n : Int) : JsonValue
  | numF (m : Int) (e : Int) : JsonValue
  | nan : JsonValue
  | inf (neg : Bool) : JsonValue
  | str (s : String) : JsonValue
  | arr (elems : List JsonValue) : JsonValue
  | obj (fields : List (String × JsonValue)) : JsonValue
deriving Repr

/-- Python dict lookup `d.get(k)`: JSON objects with duplicate keys keep
the last occurrence, so the lookup scans the field list from the end. -/
def dictGet (fields : List (String × JsonValue)) (k : String) : Option JsonValue :=
  (fields.reverse.find? (fun p => p.1 == k)).map (fun p => p.2)

/-- Exact decimal test `m * 10^e == 1` for the float model. -/
def decimalEqOne (m : Int) (e : Int) : Bool :=
  if 0 ≤ e then m * (10 : Int) ^ e.toNat == 1 else m == (10 : Int) ^ (-e).toNat

/-- Python equality `v == True`: `True` is equal to itself and to any
number of value 1 (`1 == True`, `1.0 == True`); everything else
(`None`, strings, containers, other numbers, `False`) is not equal. -/
def pyEqTrue : JsonValue → Bool
  | .bool b => b
  | .num n => n == 1
  | .numF m e => decimalEqOne m e
  | _ => false

/-- `json_data.get('__deleted') == True` once the lookup result is known:
`None == True` is `False` in Python. -/
def pyEqTrueOpt : Option JsonValue → Bool
  | none => false
  | some v => pyEqTrue v

/-! ### A model of `json.loads`

Recursive-descent parser following CPython's `json` module with default
settings: JSON whitespace is space/tab/newline/carriage-return; strings
are double-quoted with the standard escapes and reject raw control
characters (strict mode); numbers follow `-?(0|[1-9]\d*)(\.\d+)?([eE][+-]?\d+)?`;
the constants `NaN`, `Infinity`, `-Infinity` are accepted; trailing
data after the top-level value is an error.  A lone `\uXXXX` surrogate
(kept as-is by Python, unrepresentable in a Lean `Char`) is replaced by
U+FFFD; Python's recursion-depth limit on deeply nested documents is
not modelled. -/

def isJsonWs (c : Char) : Bool :=
  c == ' ' || c == '\t' || c == '\n' || c == '\r'

def skipWs (cs : List Char) : List Char :=
  cs.dropWhile isJsonWs

def digit? (c : Char) : Option Nat :=
  if 48 ≤ c.toNat ∧ c.toNat ≤ 57 then some (c.toNat - 48) else none

def takeDigits : List Char → List Nat × List Char
  | [] => ([], [])
  | c :: rest =>
    match digit? c with
    | some d => let (ds, r) := takeDigits rest; (d :: ds, r)
    | none => ([], c :: rest)

def digitsToNat (ds : List Nat) : Nat :=
  ds.foldl (fun acc d => acc * 10 + d) 0

def hexDigit? (c : Char) : Option Nat :=
  if 48 ≤ c.toNat ∧ c.toNat ≤ 57 then some (c.toNat - 48)
  else if 97 ≤ c.toNat ∧ c.toNat ≤ 102 then some (c.toNat - 97 + 10)
  else if 65 ≤ c.toNat ∧ c.toNat ≤ 70 then some (c.toNat - 65 + 10)
  else none

/-- Number scanner (assumes the caller saw a `-` or digit first).
Mirrors the `NUMBER_RE` regex: maximal match, integer literals become
`num`, fraction/exponent literals become `numF`. -/
def parseNumber (cs : List Char) : Option (JsonValue × List Char) :=
  let (neg, cs1) := match cs with
    | '-' :: r => (true, r)
    | _ => (false, cs)
  match cs1 with
  | [] => none
  | c :: rest =>
    match digit? c with
    | none => none
    | some d0 =>
      let (ipart, afterInt) :=
        if c == '0' then ((0 : Nat), rest)
        else let (ds, r) := takeDigits rest; (digitsToNat (d0 :: ds), r)
      let (fracDs, afterFrac) :=
        match afterInt with
        | '.' :: r2 =>
          match takeDigits r2 with
          | ([], _) => ([], afterInt)
          | (ds, r3) => (ds, r3)
        | _ => ([], afterInt)
      let (expPart, afterExp) :=
        match afterFrac with
        | e :: r4 =>
          if e == 'e' || e == 'E' then
            let (esign, r5) := match r4 with
              | '+' :: r => ((1 : Int), r)
              | '-' :: r => ((-1 : Int), r)
              | _ => ((1 : Int), r4)
            match takeDigits r5 with
            | ([], _) => (none, afterFrac)
            | (ds, r6) => (some (esign * (digitsToNat ds : Int)), r6)
          else (none, afterFrac)
        | [] => (none, afterFrac)
      if fracDs.isEmpty ∧ expPart.isNone then
        let n : Int := if neg then -(ipart : Int) else (ipart : Int)
        some (.num n, afterExp)
      else
        let mant : Nat := ipart * 10 ^ fracDs.length + digitsToNat fracDs
        let mantI : Int := if neg then -(mant : Int) else (mant : Int)
        let e : Int := expPart.getD 0 - (fracDs.length : Int)
        some (.numF mantI e, afterExp)

/-- String-body scanner, called just after the opening quote.  Strict
mode: raw control characters (< 0x20) are rejected; the escapes are
`\" \\ \/ \b \f \n \r \t \uXXXX` with surrogate-pair combination. -/
def parseStr : Nat → List Char → List Char → Option (String × List Char)
  | 0, _, _ => none
  | fuel + 1, acc, cs =>
    match cs with
    | [] => none
    | '"' :: rest => some (⟨acc.reverse⟩, rest)
    | '\\' :: esc =>
      match esc with
      | '"' :: r => parseStr fuel ('"' :: acc) r
      | '\\' :: r => parseStr fuel ('\\' :: acc) r
      | '/' :: r => parseStr fuel ('/' :: acc) r
      | 'b' :: r => parseStr fuel (Char.ofNat 8 :: acc) r
      | 'f' :: r => parseStr fuel (Char.ofNat 12 :: acc) r
      | 'n' :: r => parseStr fuel ('\n' :: acc) r
      | 'r' :: r => parseStr fuel ('\r' :: acc) r
      | 't' :: r => parseStr fuel ('\t' :: acc) r
      | 'u' :: h1 :: h2 :: h3 :: h4 :: r =>
        match hexDigit? h1, hexDigit? h2, hexDigit? h3, hexDigit? h4 with
        | some a, some b, some c, some d =>
          let n := ((a * 16 + b) * 16 + c) * 16 + d
          if 0xD800 ≤ n ∧ n ≤ 0xDBFF then
            match r with
            | 'u' :: l1 :: l2 :: l3 :: l4 :: r2 =>
              match hexDigit? l1, hexDigit? l2, hexDigit? l3, hexDigit? l4 with
              | some a2, some b2, some c2, some d2 =>
                let n2 := ((a2 * 16 + b2) * 16 + c2) * 16 + d2
                if 0xDC00 ≤ n2 ∧ n2 ≤ 0xDFFF then
                  let code := 0x10000 + (n - 0xD800) * 0x400 + (n2 - 0xDC00)
                  parseStr fuel (Char.ofNat code :: acc) r2
                else parseStr fuel (Char.ofNat 0xFFFD :: acc) r
              | _, _, _, _ => parseStr fuel (Char.ofNat 0xFFFD :: acc) r
            | _ => parseStr fuel (Char.ofNat 0xFFFD :: acc) r
          else if 0xDC00 ≤ n ∧ n ≤ 0xDFFF then
            parseStr fuel (Char.ofNat 0xFFFD :: acc) r
          else
            parseStr fuel (Char.ofNat n :: acc) r
        | _, _, _, _ => none
      | _ => none
    | c :: rest =>
      if c.toNat < 32 then none else parseStr fuel (c :: acc) rest

/-- Kind of JSON value a head character can start: quote, braces,
brackets, the literals `true`/`false`/`null`/`NaN`/`Infinity`, a
number (digit or `-`, the `-` also covering `-Infinity`), or nothing. -/
inductive StartKind where
  | strQ | objB | arrB | litT | litF | litN | litNaN | litInf | numStart | bad
deriving DecidableEq

def startKind (c : Char) : StartKind :=
  if c = '"' then .strQ
  else if c = '{' then .objB
  else if c = '[' then .arrB
  else if c = 't' then .litT
  else if c = 'f' then .litF
  else if c = 'n' then .litN
  else if c = 'N' then .litNaN
  else if c = 'I' then .litInf
  else if c = '-' then .numStart
  else if (digit? c).isSome then .numStart
  else .bad

/-- Combined parsing request: a JSON value, the member loop of an
object (after its opening brace and whitespace), or the element loop of
an array.  A single fuel-indexed function keeps the recursion
structural. -/
inductive ParseReq where
  | value (cs : List Char) : ParseReq
  | members (cs : List Char) (acc : List (String × JsonValue)) : ParseReq
  | elems (cs : List Char) (acc : List JsonValue) : ParseReq

/-- One step of value parsing; `recur` is the parse function for
subterms (one fuel unit down). -/
def valueStep (recur : ParseReq → Option (JsonValue × List Char)) :
    List Char → Option (JsonValue × List Char)
  | [] => none
  | c :: rest =>
    match startKind c with
    | .strQ => (parseStr (rest.length + 1) [] rest).map (fun p => (.str p.1, p.2))
    | .objB =>
      match skipWs rest with
      | '}' :: r => some (.obj [], r)
      | cs' => recur (.members cs' [])
    | .arrB =>
      match skipWs rest with
      | ']' :: r => some (.arr [], r)
      | cs' => recur (.elems cs' [])
    | .litT =>
      match rest with
      | 'r' :: 'u' :: 'e' :: r => some (.bool true, r)
      | _ => none
    | .litF =>
      match rest with
      | 'a' :: 'l' :: 's' :: 'e' :: r => some (.bool false, r)
      | _ => none
    | .litN =>
      match rest with
      | 'u' :: 'l' :: 'l' :: r => some (.null, r)
      | _ => none
    | .litNaN =>
      match rest with
      | 'a' :: 'N' :: r => some (.nan, r)
      | _ => none
    | .litInf =>
      match rest with
      | 'n' :: 'f' :: 'i' :: 'n' :: 'i' :: 't' :: 'y' :: r => some (.inf false, r)
      | _ => none
    | .numStart =>
      match c, rest with
      | '-', 'I' :: 'n' :: 'f' :: 'i' :: 'n' :: 'i' :: 't' :: 'y' :: r =>
        some (.inf true, r)
      | _, _ => parseNumber (c :: rest)
    | .bad => none

/-- One step of the object-member loop (positioned at a key). -/
def membersStep (recur : ParseReq → Option (JsonValue × List Char))
    (cs : List Char) (acc : List (String × JsonValue)) :
    Option (JsonValue × List Char) :=
  match cs with
  | '"' :: rest =>
    match parseStr (rest.length + 1) [] rest with
    | none => none
    | some (k, r1) =>
      match skipWs r1 with
      | ':' :: r2 =>
        match recur (.value (skipWs r2)) with
        | none => none
        | some (v, r3) =>
          match skipWs r3 with
          | '}' :: r4 => some (.obj (acc ++ [(k, v)]), r4)
          | ',' :: r4 => recur (.members (skipWs r4) (acc ++ [(k, v)]))
          | _ => none
      | _ => none
  | _ => none

/-- One step of the array-element loop (positioned at an element). -/
def elemsStep (recur : ParseReq → Option (JsonValue × List Char))
    (cs : List Char) (acc : List JsonValue) :
    Option (JsonValue × List Char) :=
  match recur (.value cs) with
  | none => none
  | some (v, r1) =>
    match skipWs r1 with
    | ']' :: r2 => some (.arr (acc ++ [v]), r2)
    | ',' :: r2 => recur (.elems (skipWs r2) (acc ++ [v]))
    | _ => none

def parseCore : Nat → ParseReq → Option (JsonValue × List Char)
  | 0, _ => none
  | fuel + 1, .value cs => valueStep (parseCore fuel) cs
  | fuel + 1, .members cs acc => membersStep (parseCore fuel) cs acc
  | fuel + 1, .elems cs acc => elemsStep (parseCore fuel) cs acc

/-- `json.loads`: one JSON value surrounded by optional whitespace;
anything left over is an error.  `none` models `json.JSONDecodeError`. -/
def jsonParse (s : String) : Option JsonValue :=
  match parseCore (2 * s.data.length + 2) (.value (skipWs s.data)) with
  | some (v, rest) => if (skipWs rest).isEmpty then some v else none
  | none => none

/-! ### Record filter (`consume_and_load`, lines 153–166)

`message_value.strip()` with no argument strips Python whitespace; the
model covers the ASCII and Unicode whitespace code points Python
strips. -/

def isPyStrWs (c : Char) : Bool :=
  decide ((9 ≤ c.toNat ∧ c.toNat ≤ 13) ∨ (28 ≤ c.toNat ∧ c.toNat ≤ 32) ∨
    c.toNat = 133 ∨ c.toNat = 160 ∨ c.toNat = 5760 ∨
    (8192 ≤ c.toNat ∧ c.toNat ≤ 8202) ∨ c.toNat = 8232 ∨ c.toNat = 8233 ∨
    c.toNat = 8239 ∨ c.toNat = 8287 ∨ c.toNat = 12288)

/-- `not message_value or message_value.strip() == ''` — true exactly
when every character of the payload is Python whitespace (vacuously for
the empty string). -/
def isEmptyOrWsOnly (s : String) : Bool :=
  s.data.all isPyStrWs

/-- Outcome of the inline per-payload checks of `consume_and_load`
(lines 154–166 plus the `AttributeError` raised by
`json_data.get` when `json.loads` returns a non-dict, which the outer
handler at line 195 catches). -/
inductive FilterVerdict where
  | dropEmpty : FilterVerdict
  | dropMalformed : FilterVerdict
  | dropTombstone : FilterVerdict
  | dropAttrError : FilterVerdict
  | keep : FilterVerdict
deriving DecidableEq, Repr

/-- The record-filter decision for a decoded payload string, in source
order: emptiness first (line 154), then JSON parsing (lines 158–166),
then the tombstone check `json_data.get('__deleted') == True`
(line 161). -/
def filterPayload (s : String) : FilterVerdict :=
  if isEmptyOrWsOnly s then .dropEmpty
  else
    match jsonParse s with
    | none => .dropMalformed
    | some (.obj fields) =>
      if pyEqTrueOpt (dictGet fields "__deleted") then .dropTombstone else .keep
    | some _ => .dropAttrError

/-! ### Data model of the loop state -/

/-- The `data_row` list built at lines 169–174. -/
structure DataRow where
  raw_data : String
  kafka_timestamp : Nat
  kafka_offset : Nat
  kafka_partition : Nat
deriving DecidableEq, Repr

/-- The hard-coded `topic_table_mapping` (lines 39–43). -/
def topic_table_mapping : List (String × String) :=
  [("mongo.ecom.ecom.customers", "mongo_ecom_customers"),
   ("mongo.ecom.ecom.products", "mongo_ecom_products"),
   ("mongo.ecom.ecom.orders", "mongo_ecom_orders")]

/-- `self.topic_table_mapping.get(topic)`. -/
def lookupTable (topic : String) : Option String :=
  (topic_table_mapping.find? (fun p => p.1 == topic)).map (fun p => p.2)

/-- Destination table names in `topic_table_mapping.values()` order. -/
def tableNames : List String :=
  topic_table_mapping.map (fun p => p.2)

/-- `batch_data = {table: [] for table in self.topic_table_mapping.values()}`
(line 116): the dict always holds exactly the three mapped tables, so it
is embedded as a record with one buffer per table. -/
structure Buffers where
  customers : List DataRow
  products : List DataRow
  orders : List DataRow
deriving DecidableEq, Repr

/-- `batch_data[table_name]` (read). -/
def getBuf (b : Buffers) (t : String) : List DataRow :=
  if t == "mongo_ecom_customers" then b.customers
  else if t == "mongo_ecom_products" then b.products
  else if t == "mongo_ecom_orders" then b.orders
  else []

/-- `batch_data[table_name] = ...` (write through a function of the old
buffer, covering both `append` and reset to `[]`). -/
def setBuf (b : Buffers) (t : String) (f : List DataRow → List DataRow) : Buffers :=
  if t == "mongo_ecom_customers" then { b with customers := f b.customers }
  else if t == "mongo_ecom_products" then { b with products := f b.products }
  else if t == "mongo_ecom_orders" then { b with orders := f b.orders }
  else b

/-- One `_insert_batch` invocation: the destination table, the rows
passed, and whether the ClickHouse insert succeeded (line 214) or threw
and was logged (lines 216–217). -/
structure SinkCall where
  table : String
  rows : List DataRow
  ok : Bool
deriving DecidableEq, Repr

/-- Mutable state of one `consume_and_load` run: `message_count`
(line 114), the per-table buffers (line 116), the log of `_insert_batch`
calls made so far, and a count of messages that hit the per-message
`except Exception` handler at lines 195–197. -/
structure LoopState where
  message_count : Nat
  batch_data : Buffers
  calls : List SinkCall
  processing_errors : Nat
deriving DecidableEq, Repr

/-- State at the top of `consume_and_load`'s loop (lines 114–117). -/
def initState : LoopState :=
  { message_count := 0, batch_data := ⟨[], [], []⟩, calls := [], processing_errors := 0 }

/-- `batch_size = 100` (line 115): a hard-coded constant in the source. -/
def batch_size : Nat := 100

/-- `self._insert_batch(table_name, data)`: the sink either succeeds or
throws; `_insert_batch` catches and logs either way (lines 210–217), so
it only records the attempt.  `sinkOk` is the environment's verdict for
the n-th insert call of the run. -/
def insert_batch (sinkOk : Nat → Bool) (st : LoopState) (t : String)
    (rows : List DataRow) : LoopState :=
  { st with calls := st.calls ++ [⟨t, rows, sinkOk st.calls.length⟩] }

/-- Lines 180–182: `_insert_batch` then `batch_data[table_name] = []`.
The buffer is cleared whether or not the insert succeeded. -/
def flushTable (sinkOk : Nat → Bool) (st : LoopState) (t : String) : LoopState :=
  let st' := insert_batch sinkOk st t (getBuf st.batch_data t)
  { st' with batch_data := setBuf st'.batch_data t (fun _ => []) }

/-- Lines 199–202: `for table_name, data in batch_data.items(): if data:
_insert_batch(...)` — dict iteration order is key-insertion order,
i.e. customers, products, orders.  Buffers are not cleared (the dict is
discarded right after). -/
def drainAll (sinkOk : Nat → Bool) (st : LoopState) : LoopState :=
  let st1 := if (getBuf st.batch_data "mongo_ecom_customers").isEmpty then st
    else insert_batch sinkOk st "mongo_ecom_customers" (getBuf st.batch_data "mongo_ecom_customers")
  let st2 := if (getBuf st.batch_data "mongo_ecom_products").isEmpty then st1
    else insert_batch sinkOk st1 "mongo_ecom_products" (getBuf st.batch_data "mongo_ecom_products")
  if (getBuf st.batch_data "mongo_ecom_orders").isEmpty then st2
  else insert_batch sinkOk st2 "mongo_ecom_orders" (getBuf st.batch_data "mongo_ecom_orders")

/-- The keep path of message processing (lines 169–182): append the
row built from the payload to the destination table's buffer, increment
`message_count`, and flush the buffer the instant it reaches
`batch_size`. -/
def keepStep (sinkOk : Nat → Bool) (st : LoopState) (tbl : String)
    (row : DataRow) : LoopState :=
  let bd := setBuf st.batch_data tbl (fun buf => buf ++ [row])
  let st1 : LoopState :=
    { st with batch_data := bd, message_count := st.message_count + 1 }
  if batch_size ≤ (getBuf bd tbl).length then flushTable sinkOk st1 tbl else st1

/-! ### The polling loop of `consume_and_load` (lines 124–204) -/

/-- Arguments of `consume_and_load(max_messages, timeout_seconds,
realtime)`.  Python truthiness makes `None` and `0` both disable a
cap, so the caps stay `Option Nat` and are tested with `truthyNat`. -/
structure Config where
  realtime : Bool
  max_messages : Option Nat
  timeout_seconds : Option Nat

/-- Python truthiness of an optional integer (`max_messages and ...`,
`timeout_seconds and ...`). -/
def truthyNat : Option Nat → Bool
  | none => false
  | some n => n != 0

/-- The raw Kafka payload bytes, quotiented by the only operation the
bridge performs on them: `msg.value().decode('utf-8')` (line 151).
`invalid` stands for byte sequences on which the decode raises
`UnicodeDecodeError`. -/
inductive RawBytes where
  | invalid : RawBytes
  | text (s : String) : RawBytes

/-- An inbound Kafka message as the bridge observes it. -/
structure KafkaMessage where
  topic : String
  value : Option RawBytes
  offset : Nat
  partition : Nat

/-- What one `consumer.poll(1.0)` call delivers.  `noMsg` carries the
value of `time.time()` observed at the subsequent timeout check;
`message` carries the value of `time.time()` observed while building
the data row; `interrupt` is a `KeyboardInterrupt` delivered at the
poll call (the loop's suspension point). -/
inductive PollEvent where
  | noMsg (now : Nat) : PollEvent
  | kerror (partitionEOF : Bool) : PollEvent
  | message (m : KafkaMessage) (now : Nat) : PollEvent
  | interrupt : PollEvent

/-- Disposition of one loop iteration: fall through to the next poll
(`continue`), `break` out to the drain, or propagate
`KeyboardInterrupt` (which `except Exception` at line 207 does not
catch, since `KeyboardInterrupt` is not an `Exception`). -/
inductive StepOut where
  | cont (st : LoopState) : StepOut
  | brk (st : LoopState) : StepOut
  | intr (st : LoopState) : StepOut

/-- Lines 142–197: processing of one received message.
`msg.value().decode('utf-8') if msg.value() else ''` maps an absent
value to `''`; a decode failure raises and is caught by the
per-message handler (lines 195–197), as is the `AttributeError` from
`json_data.get` on non-dict JSON. -/
def stepMessage (cfg : Config) (sinkOk : Nat → Bool) (st : LoopState)
    (m : KafkaMessage) (now : Nat) : StepOut :=
  match lookupTable m.topic with
  | none => .cont st
  | some table_name =>
    match m.value with
    | some .invalid => .cont { st with processing_errors := st.processing_errors + 1 }
    | v =>
      let message_value := match v with
        | some (.text s) => s
        | _ => ""
      match filterPayload message_value with
      | .dropEmpty => .cont st
      | .dropMalformed => .cont st
      | .dropTombstone => .cont st
      | .dropAttrError => .cont { st with processing_errors := st.processing_errors + 1 }
      | .keep =>
        let st2 := keepStep sinkOk st table_name
          ⟨message_value, now, m.offset, m.partition⟩
        if cfg.realtime = false ∧ truthyNat cfg.max_messages = true ∧
            cfg.max_messages.getD 0 ≤ st.message_count + 1 then
          .brk st2
        else
          .cont st2

/-- One iteration of the `while True` loop for one poll outcome. -/
def stepEvent (cfg : Config) (sinkOk : Nat → Bool) (start_time : Nat)
    (st : LoopState) : PollEvent → StepOut
  | .noMsg now =>
    if cfg.realtime = false ∧ truthyNat cfg.timeout_seconds = true ∧
        cfg.timeout_seconds.getD 0 < now - start_time then
      .brk st
    else
      .cont st
  | .kerror _ => .cont st
  | .message m now => stepMessage cfg sinkOk st m now
  | .interrupt => .intr st

/-- How the `while True` loop ended: `brk` falls through to the drain
at lines 199–202; `intr` propagates out of `consume_and_load` without
draining; `exhausted` means the supplied event trace ran out with the
loop still running. -/
inductive LoopExit where
  | brk (st : LoopState) : LoopExit
  | intr (st : LoopState) : LoopExit
  | exhausted (st : LoopState) : LoopExit

/-- The `while True` loop (lines 124–197) over a trace of poll
outcomes. -/
def loopRun (cfg : Config) (sinkOk : Nat → Bool) (start_time : Nat) :
    List PollEvent → LoopState → LoopExit
  | [], st => .exhausted st
  | e :: rest, st =>
    match stepEvent cfg sinkOk start_time st e with
    | .cont st' => loopRun cfg sinkOk start_time rest st'
    | .brk st' => .brk st'
    | .intr st' => .intr st'

/-- Result of one `consume_and_load` call. -/
inductive RunOutcome where
  | finished (st : LoopState) : RunOutcome
  | interrupted (st : LoopState) : RunOutcome
  | outOfEvents (st : LoopState) : RunOutcome

/-- `consume_and_load`: run the loop from the fresh state; a `break`
falls through to the end-of-run drain (lines 199–202); a
`KeyboardInterrupt` propagates without draining. -/
def consumeAndLoad (cfg : Config) (sinkOk : Nat → Bool) (start_time : Nat)
    (trace : List PollEvent) : RunOutcome :=
  match loopRun cfg sinkOk start_time trace initState with
  | .brk st => .finished (drainAll sinkOk st)
  | .intr st => .interrupted st
  | .exhausted st => .outOfEvents st

/-- The loop state carried by a loop exit. -/
def loopExitState : LoopExit → LoopState
  | .brk st => st
  | .intr st => st
  | .exhausted st => st

/-- The loop state inside a run outcome. -/
def outcomeState : RunOutcome → LoopState
  | .finished st => st
  | .interrupted st => st
  | .outOfEvents st => st

/-- Number of records actually stored in ClickHouse: rows of the
successful insert calls. -/
def storedCount (st : LoopState) : Nat :=
  ((st.calls.filter (fun c => c.ok)).map (fun c => c.rows.length)).sum

/-- Rows passed to the sink (successfully or not). -/
def flushedRows (st : LoopState) : Nat :=
  (st.calls.map (fun c => c.rows.length)).sum

/-- Rows currently sitting in the per-table buffers. -/
def bufferedRows (st : LoopState) : Nat :=
  st.batch_data.customers.length + st.batch_data.products.length +
    st.batch_data.orders.length

/-! ### The startup path of `main` (lines 243–307) -/

/-- Environment outcomes for the startup calls: whether the ClickHouse
probe (`SELECT 1`, line 88) succeeds, whether the Kafka probe
(`list_topics`, line 93) succeeds, and whether each of the three
`CREATE TABLE IF NOT EXISTS` commands (lines 77–82) succeeds. -/
structure StartupEnv where
  clickhouseOk : Bool
  kafkaOk : Bool
  tableOk : List Bool

/-- `test_connections` (lines 84–100): the ClickHouse probe runs first;
any exception returns `False`; both probes succeeding returns `True`. -/
def test_connections (env : StartupEnv) : Bool :=
  env.clickhouseOk && env.kafkaOk

/-- `create_tables` (lines 45–82): each `CREATE TABLE` failure is caught
and logged, the loop always runs to completion and never signals
failure to the caller.  The result counts the logged errors. -/
def create_tables (env : StartupEnv) : Nat :=
  (env.tableOk.filter (fun ok => ok = false)).length

/-- Result of `main` as far as process-level behaviour goes.
`connFail` is the early `return` at lines 273–275 (a plain `return`, so
the interpreter exits with status code `exitCode`); `ran` records
that the pipeline was entered despite `tableErrors` logged failures,
with the run result and the final exit status. -/
inductive MainResult where
  | connFail (exitCode : Nat) : MainResult
  | ran (tableErrors : Nat) (run : RunOutcome) (exitCode : Nat) : MainResult

/-- `main` (lines 243–307) for a run with the given startup environment
and poll trace.  `cfg` is the `consume_and_load` configuration the
chosen command-line mode produces.  No call to `sys.exit` exists in
the script, so every path ends with exit status 0 (the
`KeyboardInterrupt` of a continuous run is caught at line 295). -/
def mainRun (env : StartupEnv) (cfg : Config) (sinkOk : Nat → Bool)
    (start_time : Nat) (trace : List PollEvent) : MainResult :=
  if test_connections env = false then
    .connFail 0
  else
    .ran (create_tables env) (consumeAndLoad cfg sinkOk start_time trace) 0

/-- Messages consumed by a `main` invocation: zero on the early-return
path, the run's processed-message count otherwise. -/
def mainConsumed : MainResult → Nat
  | .connFail _ => 0
  | .ran _ run _ => (outcomeState run).message_count

/-- Insert calls issued by a `main` invocation (data mutations). -/
def mainInserts : MainResult → Nat
  | .connFail _ => 0
  | .ran _ run _ => (outcomeState run).calls.length

/-- Exit status of the process for a `main` invocation. -/
def mainExitCode : MainResult → Nat
  | .connFail c => c
  | .ran _ _ c => c

/-! ### Derived observations and concrete scenario values -/

/-- The payload parses to a JSON object whose reserved `__deleted`
field is the boolean `true` (the tombstone form named by the spec). -/
def carriesDeleteTrue (s : String) : Bool :=
  match jsonParse s with
  | some (.obj fields) =>
    match dictGet fields "__deleted" with
    | some (.bool true) => true
    | _ => false
  | _ => false

/-- The loop state at the start of every poll iteration the run
reaches (the loop stops contributing once it breaks or is
interrupted). -/
def loopStates (cfg : Config) (sinkOk : Nat → Bool) (start_time : Nat) :
    List PollEvent → LoopState → List LoopState
  | [], st => [st]
  | e :: rest, st =>
    st :: (match stepEvent cfg sinkOk start_time st e with
      | .cont st' => loopStates cfg sinkOk start_time rest st'
      | .brk _ => []
      | .intr _ => [])

/-- Every per-table buffer is strictly below the batch-size
threshold. -/
def buffersOk (st : LoopState) : Prop :=
  st.batch_data.customers.length < batch_size ∧
  st.batch_data.products.length < batch_size ∧
  st.batch_data.orders.length < batch_size

/-- Every insert call so far carried at most `batch_size` rows. -/
def callsOk (st : LoopState) : Prop :=
  ∀ c ∈ st.calls, c.rows.length ≤ batch_size

/-- All data rows the run has produced: rows handed to the sink (in
call order) followed by the rows still buffered. -/
def rowsOf (st : LoopState) : List DataRow :=
  (st.calls.map (fun c => c.rows)).flatten ++
    (st.batch_data.customers ++ st.batch_data.products ++ st.batch_data.orders)

/-- The state carried by a step disposition. -/
def stepOutState : StepOut → LoopState
  | .cont st => st
  | .brk st => st
  | .intr st => st

/-- Which way the run ended (0 finished, 1 interrupted, 2 ran out of
events), for comparing control flow across sink behaviours. -/
def outcomeTag : RunOutcome → Nat
  | .finished _ => 0
  | .interrupted _ => 1
  | .outOfEvents _ => 2

/-- The insert calls with their success flags erased: which tables were
written, with which rows, in which order. -/
def callSig (st : LoopState) : List (String × List DataRow) :=
  st.calls.map (fun c => (c.table, c.rows))

/-- Constructor tag of a step disposition (0 continue, 1 break,
2 interrupt). -/
def stepOutTag : StepOut → Nat
  | .cont _ => 0
  | .brk _ => 1
  | .intr _ => 2

/-- Constructor tag of a loop exit (0 break, 1 interrupt,
2 out of events). -/
def loopExitTag : LoopExit → Nat
  | .brk _ => 0
  | .intr _ => 1
  | .exhausted _ => 2

/-- Two loop states agree on everything the sink's answers cannot
influence: the processed count, the buffers, the error count, and the
sequence of attempted insert calls (tables and rows — only the success
flags may differ). -/
def mirrors (st1 st2 : LoopState) : Prop :=
  st1.message_count = st2.message_count ∧
  st1.batch_data = st2.batch_data ∧
  st1.processing_errors = st2.processing_errors ∧
  callSig st1 = callSig st2

/-- A well-formed, non-tombstone CDC payload used in the concrete
scenarios. -/
def validPayload : String := "\x7b\"id\": 7\x7d"

/-- A message for the mapped customers topic carrying `validPayload`. -/
def vmsg : KafkaMessage :=
  { topic := "mongo.ecom.ecom.customers", value := some (.text validPayload),
    offset := 7, partition := 0 }

/-- A message for the mapped products topic whose bytes do not decode
as UTF-8. -/
def badMsg : KafkaMessage :=
  { topic := "mongo.ecom.ecom.products", value := some .invalid,
    offset := 4, partition := 2 }

/-- A tombstone message for the mapped customers topic. -/
def tombMsg : KafkaMessage :=
  { topic := "mongo.ecom.ecom.customers",
    value := some (.text "\x7b\"__deleted\": true\x7d"), offset := 8, partition := 0 }

/-- Bounded mode with a message cap of 50 and a time cap that never
expires during the scenarios. -/
def cfgBounded50 : Config :=
  { realtime := false, max_messages := some 50, timeout_seconds := some 1000000 }

/-- The `--batch` invocation (line 303): `max_messages=3500`,
`timeout_seconds=60`, `realtime=False`. -/
def cfgBatch : Config :=
  { realtime := false, max_messages := some 3500, timeout_seconds := some 60 }

/-- The default continuous invocation (line 294): `realtime=True`. -/
def cfgRealtime : Config :=
  { realtime := true, max_messages := none, timeout_seconds := none }

/-- A sink that accepts every insert. -/
def alwaysOk : Nat → Bool := fun _ => true


/-! ### Supporting lemmas -/

theorem head_dropWhile_false (p : Char → Bool) (l : List Char) {c : Char}
    {r : List Char} (h : l.dropWhile p = c :: r) : p c = false := by
  induction l with
  | nil => simp [List.dropWhile] at h
  | cons a t ih =>
    cases hp : p a
    · simp only [List.dropWhile, hp] at h
      cases h
      exact hp
    · simp only [List.dropWhile, hp] at h
      exact ih h

/-- No Python whitespace character can start a JSON value. -/
theorem startKind_of_pyWs {c : Char} (hws : isPyStrWs c = true) :
    startKind c = .bad := by
  have hval : (9 ≤ c.toNat ∧ c.toNat ≤ 13) ∨ (28 ≤ c.toNat ∧ c.toNat ≤ 32) ∨
      c.toNat = 133 ∨ c.toNat = 160 ∨ c.toNat = 5760 ∨
      (8192 ≤ c.toNat ∧ c.toNat ≤ 8202) ∨ c.toNat = 8232 ∨ c.toNat = 8233 ∨
      c.toNat = 8239 ∨ c.toNat = 8287 ∨ c.toNat = 12288 := by
    simpa [isPyStrWs, decide_eq_true_eq] using hws
  have h1 : ¬(c = '"') := by rintro rfl; revert hval; decide
  have h2 : ¬(c = '{') := by rintro rfl; revert hval; decide
  have h3 : ¬(c = '[') := by rintro rfl; revert hval; decide
  have h4 : ¬(c = 't') := by rintro rfl; revert hval; decide
  have h5 : ¬(c = 'f') := by rintro rfl; revert hval; decide
  have h6 : ¬(c = 'n') := by rintro rfl; revert hval; decide
  have h7 : ¬(c = 'N') := by rintro rfl; revert hval; decide
  have h8 : ¬(c = 'I') := by rintro rfl; revert hval; decide
  have h9 : ¬(c = '-') := by rintro rfl; revert hval; decide
  have h10 : ¬((digit? c).isSome = true) := by
    intro h
    unfold digit? at h
    split at h
    · omega
    · simp at h
  simp [startKind, h1, h2, h3, h4, h5, h6, h7, h8, h9, h10]

/-- A payload consisting only of Python whitespace (in particular the
empty payload) always fails `json.loads`. -/
theorem jsonParse_of_wsOnly {s : String} (h : isEmptyOrWsOnly s = true) :
    jsonParse s = none := by
  have hall : ∀ c ∈ s.data, isPyStrWs c = true := by
    simpa [isEmptyOrWsOnly, List.all_eq_true] using h
  obtain ⟨k, hk⟩ : ∃ k, 2 * s.data.length + 2 = k + 1 :=
    ⟨2 * s.data.length + 1, by omega⟩
  unfold jsonParse
  rw [hk]
  rcases hcs : skipWs s.data with _ | ⟨c, rest⟩
  · simp [parseCore, valueStep]
  · have hmem : c ∈ s.data := by
      have hc : c ∈ skipWs s.data := by
        rw [hcs]
        exact List.mem_cons_self _ _
      exact (List.dropWhile_sublist _).subset hc
    have hsk : startKind c = .bad := startKind_of_pyWs (hall c hmem)
    simp [parseCore, valueStep, hsk]

/-- A payload that parses is not empty or whitespace-only. -/
theorem wsOnly_false_of_parse {s : String} {v : JsonValue}
    (h : jsonParse s = some v) : isEmptyOrWsOnly s = false := by
  cases he : isEmptyOrWsOnly s
  · rfl
  · rw [jsonParse_of_wsOnly he] at h
    cases h

/-- A message whose decoded payload the filter drops (empty, malformed
or tombstone) leaves the loop state untouched and falls through to the
next poll. -/
theorem stepMessage_of_drop (cfg : Config) (sinkOk : Nat → Bool)
    (st : LoopState) (m : KafkaMessage) (now : Nat) (s : String)
    (hv : m.value = some (.text s))
    (hf : filterPayload s = .dropEmpty ∨ filterPayload s = .dropMalformed ∨
      filterPayload s = .dropTombstone) :
    stepMessage cfg sinkOk st m now = .cont st := by
  unfold stepMessage
  cases hl : lookupTable m.topic
  · rfl
  · rw [hv]
    rcases hf with hf | hf | hf <;> simp [hf]

/-- The router only ever produces the three mapped table names. -/
theorem lookupTable_cases {t tbl : String} (h : lookupTable t = some tbl) :
    tbl = "mongo_ecom_customers" ∨ tbl = "mongo_ecom_products" ∨
      tbl = "mongo_ecom_orders" := by
  unfold lookupTable topic_table_mapping at h
  simp only [List.find?] at h
  split at h
  · simp at h
    tauto
  · split at h
    · simp at h
      tauto
    · split at h
      · simp at h
        tauto
      · simp [List.find?] at h

/-- Unfolding of `stepMessage` on a kept message: the row is appended
to the destination table's buffer, the message counter increments, the
buffer is flushed when it reaches the batch size, and the bounded-mode
message cap is checked against the incremented counter. -/
theorem stepMessage_keep (cfg : Config) (sinkOk : Nat → Bool) (st : LoopState)
    (m : KafkaMessage) (now : Nat) (tbl s : String)
    (hl : lookupTable m.topic = some tbl)
    (hv : m.value = some (.text s))
    (hk : filterPayload s = .keep) :
    stepMessage cfg sinkOk st m now =
      (if cfg.realtime = false ∧ truthyNat cfg.max_messages = true ∧
           cfg.max_messages.getD 0 ≤ st.message_count + 1 then
         .brk (keepStep sinkOk st tbl ⟨s, now, m.offset, m.partition⟩)
       else
         .cont (keepStep sinkOk st tbl ⟨s, now, m.offset, m.partition⟩)) := by
  unfold stepMessage keepStep
  rw [hl, hv]
  simp only [hk]

theorem getBuf_c (b : Buffers) : getBuf b "mongo_ecom_customers" = b.customers := rfl

theorem getBuf_p (b : Buffers) : getBuf b "mongo_ecom_products" = b.products := rfl

theorem getBuf_o (b : Buffers) : getBuf b "mongo_ecom_orders" = b.orders := rfl

theorem setBuf_c (b : Buffers) (f : List DataRow → List DataRow) :
    setBuf b "mongo_ecom_customers" f = { b with customers := f b.customers } := rfl

theorem setBuf_p (b : Buffers) (f : List DataRow → List DataRow) :
    setBuf b "mongo_ecom_products" f = { b with products := f b.products } := rfl

theorem setBuf_o (b : Buffers) (f : List DataRow → List DataRow) :
    setBuf b "mongo_ecom_orders" f = { b with orders := f b.orders } := rfl

/-- Keeping a message always increments the processed-message counter
by exactly one (flushing does not touch it). -/
theorem keepStep_count (sinkOk : Nat → Bool) (st : LoopState) (tbl : String)
    (row : DataRow) :
    (keepStep sinkOk st tbl row).message_count = st.message_count + 1 := by
  unfold keepStep
  dsimp only
  split
  · simp [flushTable, insert_batch]
  · rfl

/-- Keeping a message adds exactly the new row to the run's rows,
whether or not a flush was triggered. -/
theorem keepStep_rows (sinkOk : Nat → Bool) (st : LoopState) (tbl : String)
    (row : DataRow)
    (htbl : tbl = "mongo_ecom_customers" ∨ tbl = "mongo_ecom_products" ∨
      tbl = "mongo_ecom_orders") :
    (rowsOf (keepStep sinkOk st tbl row)).Perm (row :: rowsOf st) := by
  obtain rfl | rfl | rfl := htbl
  · unfold keepStep
    dsimp only
    split
    · simp only [rowsOf, flushTable, insert_batch, getBuf_c, setBuf_c,
        List.map_append, List.flatten_append, List.map_cons, List.map_nil,
        List.flatten_cons, List.flatten_nil]
      have h1 := @List.perm_middle DataRow row
        ((st.calls.map (fun c => c.rows)).flatten ++ st.batch_data.customers)
        (st.batch_data.products ++ st.batch_data.orders)
      simp only [List.append_assoc, List.singleton_append, List.cons_append,
        List.append_nil, List.nil_append] at h1 ⊢
      exact h1
    · simp only [rowsOf, setBuf_c]
      have h1 := @List.perm_middle DataRow row
        ((st.calls.map (fun c => c.rows)).flatten ++ st.batch_data.customers)
        (st.batch_data.products ++ st.batch_data.orders)
      simp only [List.append_assoc, List.singleton_append, List.cons_append,
        List.append_nil, List.nil_append] at h1 ⊢
      exact h1
  · unfold keepStep
    dsimp only
    split
    · simp only [rowsOf, flushTable, insert_batch, getBuf_p, setBuf_p,
        List.map_append, List.flatten_append, List.map_cons, List.map_nil,
        List.flatten_cons, List.flatten_nil]
      have h1 := @List.perm_middle DataRow row
        ((st.calls.map (fun c => c.rows)).flatten ++ st.batch_data.products)
        (st.batch_data.customers ++ st.batch_data.orders)
      have h2 := (List.perm_append_comm_assoc st.batch_data.products
        st.batch_data.customers st.batch_data.orders).append_left
        ((st.calls.map (fun c => c.rows)).flatten)
      simp only [List.append_assoc, List.singleton_append, List.cons_append,
        List.append_nil, List.nil_append] at h1 h2 ⊢
      exact h1.trans (h2.cons row)
    · simp only [rowsOf, setBuf_p]
      have h1 := @List.perm_middle DataRow row
        (((st.calls.map (fun c => c.rows)).flatten ++ st.batch_data.customers) ++
          st.batch_data.products)
        st.batch_data.orders
      simp only [List.append_assoc, List.singleton_append, List.cons_append,
        List.append_nil, List.nil_append] at h1 ⊢
      exact h1
  · unfold keepStep
    dsimp only
    split
    · simp only [rowsOf, flushTable, insert_batch, getBuf_o, setBuf_o,
        List.map_append, List.flatten_append, List.map_cons, List.map_nil,
        List.flatten_cons, List.flatten_nil]
      have h1 := @List.perm_middle DataRow row
        ((st.calls.map (fun c => c.rows)).flatten ++ st.batch_data.orders)
        (st.batch_data.customers ++ st.batch_data.products)
      have h2 := (@List.perm_append_comm DataRow st.batch_data.orders
        (st.batch_data.customers ++ st.batch_data.products)).append_left
        ((st.calls.map (fun c => c.rows)).flatten)
      simp only [List.append_assoc, List.singleton_append, List.cons_append,
        List.append_nil, List.nil_append] at h1 h2 ⊢
      exact h1.trans (h2.cons row)
    · simp only [rowsOf, setBuf_o]
      have h1 := @List.perm_middle DataRow row
        ((((st.calls.map (fun c => c.rows)).flatten ++ st.batch_data.customers) ++
          st.batch_data.products) ++ st.batch_data.orders)
        []
      simp only [List.append_assoc, List.singleton_append, List.cons_append,
        List.append_nil, List.nil_append] at h1 ⊢
      exact h1

/-! ### Claim C1 -/

/-- C1: every inbound payload that is empty or whitespace-only, or that
fails JSON parsing, or that parses and carries `__deleted` equal to
boolean `true`, is dropped by the record filter inside
`consume_and_load`: processing returns `.cont` with the loop state
unchanged, so no record is appended to any table's batch buffer.
Moreover emptiness is classified first and parse failure second, before
the deletion marker is ever inspected. -/
theorem claim_C1 (s : String) :
    (isEmptyOrWsOnly s = true → filterPayload s = .dropEmpty)
    ∧ (isEmptyOrWsOnly s = false → jsonParse s = none →
        filterPayload s = .dropMalformed)
    ∧ ((isEmptyOrWsOnly s = true ∨ jsonParse s = none ∨
          carriesDeleteTrue s = true) →
        filterPayload s ≠ .keep
        ∧ ∀ (cfg : Config) (sinkOk : Nat → Bool) (st : LoopState)
            (m : KafkaMessage) (now : Nat), m.value = some (.text s) →
            stepMessage cfg sinkOk st m now = .cont st) := by
  refine ⟨fun h => by simp [filterPayload, h],
    fun h1 h2 => by simp [filterPayload, h1, h2], fun hd => ?_⟩
  have hv : filterPayload s = .dropEmpty ∨ filterPayload s = .dropMalformed ∨
      filterPayload s = .dropTombstone := by
    rcases hd with h | h | h
    · exact Or.inl (by simp [filterPayload, h])
    · by_cases he : isEmptyOrWsOnly s = true
      · exact Or.inl (by simp [filterPayload, he])
      · exact Or.inr (Or.inl (by
          simp [filterPayload, Bool.of_not_eq_true he, h]))
    · have hsplit : ∃ fields, jsonParse s = some (.obj fields) ∧
          dictGet fields "__deleted" = some (.bool true) := by
        unfold carriesDeleteTrue at h
        split at h
        · rename_i fields heq
          split at h
          · rename_i heq2
            exact ⟨fields, heq, heq2⟩
          · cases h
        · cases h
      obtain ⟨fields, hp, hg⟩ := hsplit
      have he := wsOnly_false_of_parse hp
      exact Or.inr (Or.inr (by
        simp [filterPayload, he, hp, pyEqTrueOpt, hg, pyEqTrue]))
  constructor
  · rcases hv with h | h | h <;> simp [h]
  · intro cfg sinkOk st m now hm
    exact stepMessage_of_drop cfg sinkOk st m now s hm hv

/-- Witness for C1 at the concrete tombstone payload. -/
theorem claim_C1_witness :
    filterPayload "\x7b\"__deleted\": true\x7d" ≠ .keep ∧
    stepMessage cfgRealtime alwaysOk initState tombMsg 3 = .cont initState := by
  have h := claim_C1 "\x7b\"__deleted\": true\x7d"
  have h3 := h.2.2 (Or.inr (Or.inr (by decide)))
  exact ⟨h3.1, h3.2 cfgRealtime alwaysOk initState tombMsg 3 rfl⟩

/-! ### Claim C10 -/

/-- C10: a parseable object payload whose `__deleted` field holds the
number 1 is dropped as a tombstone and never stored, because the check
uses Python `==` under which `1 == True`; among object payloads with
the field present, exactly the values Python-equal to `True` are
dropped and all others are kept, and an absent field is kept. -/
theorem claim_C10 (s : String) (fields : List (String × JsonValue))
    (hp : jsonParse s = some (.obj fields)) :
    (dictGet fields "__deleted" = some (.num 1) →
      filterPayload s = .dropTombstone
      ∧ ∀ (cfg : Config) (sinkOk : Nat → Bool) (st : LoopState)
          (m : KafkaMessage) (now : Nat), m.value = some (.text s) →
          stepMessage cfg sinkOk st m now = .cont st)
    ∧ (∀ v, dictGet fields "__deleted" = some v →
        (filterPayload s = .dropTombstone ↔ pyEqTrue v = true)
        ∧ (filterPayload s = .keep ↔ pyEqTrue v = false))
    ∧ (dictGet fields "__deleted" = none → filterPayload s = .keep) := by
  have he := wsOnly_false_of_parse hp
  refine ⟨fun hg => ?_, fun v hg => ?_, fun hg => ?_⟩
  · have hf : filterPayload s = .dropTombstone := by
      simp [filterPayload, he, hp, pyEqTrueOpt, hg, pyEqTrue]
    exact ⟨hf, fun cfg sinkOk st m now hm =>
      stepMessage_of_drop cfg sinkOk st m now s hm (Or.inr (Or.inr hf))⟩
  · cases hb : pyEqTrue v
    · constructor
      · simp [filterPayload, he, hp, pyEqTrueOpt, hg, hb]
      · simp [filterPayload, he, hp, pyEqTrueOpt, hg, hb]
    · constructor
      · simp [filterPayload, he, hp, pyEqTrueOpt, hg, hb]
      · simp [filterPayload, he, hp, pyEqTrueOpt, hg, hb]
  · simp [filterPayload, he, hp, pyEqTrueOpt, hg]

/-- Witness for C10 at the concrete payload with `__deleted` = 1. -/
theorem claim_C10_witness :
    filterPayload "\x7b\"__deleted\": 1\x7d" = .dropTombstone ∧
    stepMessage cfgRealtime alwaysOk initState
      { topic := "mongo.ecom.ecom.orders",
        value := some (.text "\x7b\"__deleted\": 1\x7d"), offset := 2, partition := 1 }
      9 = .cont initState := by
  have h := (claim_C10 "\x7b\"__deleted\": 1\x7d" [("__deleted", .num 1)] rfl).1 rfl
  exact ⟨h.1, h.2 cfgRealtime alwaysOk initState _ 9 rfl⟩

/-! ### Claim C7 -/

/-- C7 (amended): for every payload that parses as a JSON object whose
`__deleted` field is absent or not Python-equal to `True`, the message
is kept: the counter increments and exactly one record is appended,
whose `raw_data` is the original payload string passed through
unmodified.  (As literally stated the claim is false: a payload that
parses to a non-object JSON value is dropped via the `AttributeError`
raised by `json_data.get`; see the counterexample.) -/
theorem claim_C7 (cfg : Config) (sinkOk : Nat → Bool) (st : LoopState)
    (m : KafkaMessage) (now : Nat) (tbl s : String)
    (fields : List (String × JsonValue))
    (hl : lookupTable m.topic = some tbl)
    (hv : m.value = some (.text s))
    (hp : jsonParse s = some (.obj fields))
    (hg : pyEqTrueOpt (dictGet fields "__deleted") = false) :
    filterPayload s = .keep
    ∧ (stepOutState (stepMessage cfg sinkOk st m now)).message_count =
        st.message_count + 1
    ∧ (rowsOf (stepOutState (stepMessage cfg sinkOk st m now))).Perm
        (⟨s, now, m.offset, m.partition⟩ :: rowsOf st) := by
  have hk : filterPayload s = .keep := by
    simp [filterPayload, wsOnly_false_of_parse hp, hp, hg]
  have he := stepMessage_keep cfg sinkOk st m now tbl s hl hv hk
  rw [he]
  have hso : stepOutState
      (if cfg.realtime = false ∧ truthyNat cfg.max_messages = true ∧
          cfg.max_messages.getD 0 ≤ st.message_count + 1 then
        StepOut.brk (keepStep sinkOk st tbl ⟨s, now, m.offset, m.partition⟩)
      else
        StepOut.cont (keepStep sinkOk st tbl ⟨s, now, m.offset, m.partition⟩)) =
      keepStep sinkOk st tbl ⟨s, now, m.offset, m.partition⟩ := by
    split <;> rfl
  rw [hso]
  exact ⟨hk, keepStep_count sinkOk st tbl _,
    keepStep_rows sinkOk st tbl _ (lookupTable_cases hl)⟩

/-- Witness for C7 at a concrete kept message. -/
theorem claim_C7_witness :
    filterPayload validPayload = .keep
    ∧ (stepOutState (stepMessage cfgRealtime alwaysOk initState vmsg 5)).message_count = 1
    ∧ (rowsOf (stepOutState (stepMessage cfgRealtime alwaysOk initState vmsg 5))).Perm
        [⟨validPayload, 5, 7, 0⟩] := by
  have h := claim_C7 cfgRealtime alwaysOk initState vmsg 5
    "mongo_ecom_customers" validPayload [("id", .num 7)] rfl rfl rfl rfl
  exact ⟨h.1, h.2.1, h.2.2⟩

/-- Counterexample to C7 as stated: the payload `5` parses successfully
as JSON and carries no deletion marker, yet the message is dropped —
`json.loads` returns a Python `int`, `json_data.get` raises
`AttributeError`, the per-message handler swallows it, and no record is
appended to any buffer. -/
theorem claim_C7_counterexample :
    jsonParse "5" = some (.num 5)
    ∧ carriesDeleteTrue "5" = false
    ∧ stepMessage cfgRealtime alwaysOk initState
        { topic := "mongo.ecom.ecom.customers", value := some (.text "5"),
          offset := 0, partition := 0 } 0 =
      .cont { initState with processing_errors := 1 } :=
  ⟨rfl, rfl, rfl⟩

/-! ### Claim C9 -/

/-- C9: a message whose byte payload is not decodable as UTF-8 is
dropped by the per-message error handler: the decode failure is caught
and counted as a processing error, no record is stored in any batch
(the buffers and calls are untouched), and the loop continues with the
next poll rather than terminating. -/
theorem claim_C9 (cfg : Config) (sinkOk : Nat → Bool) (start_time : Nat)
    (st : LoopState) (m : KafkaMessage) (now : Nat) (tbl : String)
    (hl : lookupTable m.topic = some tbl)
    (hv : m.value = some .invalid) :
    stepMessage cfg sinkOk st m now =
      .cont { st with processing_errors := st.processing_errors + 1 }
    ∧ ∀ rest : List PollEvent,
        loopRun cfg sinkOk start_time (.message m now :: rest) st =
          loopRun cfg sinkOk start_time rest
            { st with processing_errors := st.processing_errors + 1 } := by
  have hstep : stepMessage cfg sinkOk st m now =
      .cont { st with processing_errors := st.processing_errors + 1 } := by
    unfold stepMessage
    rw [hl, hv]
  refine ⟨hstep, fun rest => ?_⟩
  have hse : stepEvent cfg sinkOk start_time st (.message m now) =
      .cont { st with processing_errors := st.processing_errors + 1 } := hstep
  have hlr : loopRun cfg sinkOk start_time (.message m now :: rest) st =
      (match stepEvent cfg sinkOk start_time st (.message m now) with
        | .cont st' => loopRun cfg sinkOk start_time rest st'
        | .brk st' => LoopExit.brk st'
        | .intr st' => LoopExit.intr st') := rfl
  rw [hlr, hse]

/-- Witness for C9 at a concrete undecodable message. -/
theorem claim_C9_witness :
    stepMessage cfgRealtime alwaysOk initState badMsg 1 =
      .cont { initState with processing_errors := 1 }
    ∧ loopRun cfgRealtime alwaysOk 0 [.message badMsg 1] initState =
        loopRun cfgRealtime alwaysOk 0 []
          { initState with processing_errors := 1 } := by
  have h := claim_C9 cfgRealtime alwaysOk 0 initState badMsg 1
    "mongo_ecom_products" rfl rfl
  exact ⟨h.1, h.2 []⟩

/-! ### Batch-size invariant machinery -/

/-- Appending one row to a below-threshold buffer and flushing on the
threshold keeps every buffer strictly below the threshold and every
issued call at or below it. -/
theorem keepStep_inv (sinkOk : Nat → Bool) (st : LoopState) (tbl : String)
    (row : DataRow)
    (htbl : tbl = "mongo_ecom_customers" ∨ tbl = "mongo_ecom_products" ∨
      tbl = "mongo_ecom_orders")
    (hb : buffersOk st) (hc : callsOk st) :
    buffersOk (keepStep sinkOk st tbl row) ∧
      callsOk (keepStep sinkOk st tbl row) := by
  obtain ⟨hbc, hbp, hbo⟩ := hb
  simp only [batch_size] at hbc hbp hbo
  obtain rfl | rfl | rfl := htbl
  · unfold keepStep
    dsimp only
    rw [setBuf_c, getBuf_c]
    split
    · rename_i hfull
      constructor
      · refine ⟨?_, hbp, hbo⟩
        simp [flushTable, insert_batch, getBuf_c, setBuf_c, batch_size]
      · intro c hcmem
        simp only [flushTable, insert_batch, getBuf_c, List.mem_append,
          List.mem_singleton] at hcmem
        rcases hcmem with hcm | rfl
        · exact hc c hcm
        · simp [batch_size, getBuf_c]
          omega
    · rename_i hnotfull
      refine ⟨⟨?_, hbp, hbo⟩, hc⟩
      simp [batch_size] at hnotfull ⊢
      omega
  · unfold keepStep
    dsimp only
    rw [setBuf_p, getBuf_p]
    split
    · rename_i hfull
      constructor
      · refine ⟨hbc, ?_, hbo⟩
        simp [flushTable, insert_batch, getBuf_p, setBuf_p, batch_size]
      · intro c hcmem
        simp only [flushTable, insert_batch, getBuf_p, List.mem_append,
          List.mem_singleton] at hcmem
        rcases hcmem with hcm | rfl
        · exact hc c hcm
        · simp [batch_size, getBuf_p]
          omega
    · rename_i hnotfull
      refine ⟨⟨hbc, ?_, hbo⟩, hc⟩
      simp [batch_size] at hnotfull ⊢
      omega
  · unfold keepStep
    dsimp only
    rw [setBuf_o, getBuf_o]
    split
    · rename_i hfull
      constructor
      · refine ⟨hbc, hbp, ?_⟩
        simp [flushTable, insert_batch, getBuf_o, setBuf_o, batch_size]
      · intro c hcmem
        simp only [flushTable, insert_batch, getBuf_o, List.mem_append,
          List.mem_singleton] at hcmem
        rcases hcmem with hcm | rfl
        · exact hc c hcm
        · simp [batch_size, getBuf_o]
          omega
    · rename_i hnotfull
      refine ⟨⟨hbc, hbp, ?_⟩, hc⟩
      simp [batch_size] at hnotfull ⊢
      omega

/-- One loop iteration preserves the size invariants. -/
theorem stepEvent_inv (cfg : Config) (sinkOk : Nat → Bool) (start_time : Nat)
    (st : LoopState) (e : PollEvent) (hb : buffersOk st) (hc : callsOk st) :
    buffersOk (stepOutState (stepEvent cfg sinkOk start_time st e)) ∧
      callsOk (stepOutState (stepEvent cfg sinkOk start_time st e)) := by
  cases e with
  | noMsg now =>
    by_cases hco : cfg.realtime = false ∧ truthyNat cfg.timeout_seconds = true ∧
        cfg.timeout_seconds.getD 0 < now - start_time
    · simp only [stepEvent, if_pos hco]
      exact ⟨hb, hc⟩
    · simp only [stepEvent, if_neg hco]
      exact ⟨hb, hc⟩
  | kerror b => exact ⟨hb, hc⟩
  | interrupt => exact ⟨hb, hc⟩
  | message m now =>
    show buffersOk (stepOutState (stepMessage cfg sinkOk st m now)) ∧
      callsOk (stepOutState (stepMessage cfg sinkOk st m now))
    cases hl : lookupTable m.topic with
    | none =>
      unfold stepMessage
      rw [hl]
      exact ⟨hb, hc⟩
    | some tbl =>
      unfold stepMessage
      rw [hl]
      rcases hval : m.value with _ | rb
      · exact ⟨hb, hc⟩
      · cases rb with
        | invalid => exact ⟨hb, hc⟩
        | text s =>
          dsimp only
          split
          · exact ⟨hb, hc⟩
          · exact ⟨hb, hc⟩
          · exact ⟨hb, hc⟩
          · exact ⟨hb, hc⟩
          · split
            · exact keepStep_inv sinkOk st tbl _ (lookupTable_cases hl) hb hc
            · exact keepStep_inv sinkOk st tbl _ (lookupTable_cases hl) hb hc

/-- The size invariants hold at the start of every reachable poll
iteration. -/
theorem loopStates_inv (cfg : Config) (sinkOk : Nat → Bool) (start_time : Nat) :
    ∀ (trace : List PollEvent) (st : LoopState), buffersOk st → callsOk st →
      ∀ st' ∈ loopStates cfg sinkOk start_time trace st,
        buffersOk st' ∧ callsOk st' := by
  intro trace
  induction trace with
  | nil =>
    intro st hb hc st' hst'
    simp [loopStates] at hst'
    subst hst'
    exact ⟨hb, hc⟩
  | cons e rest ih =>
    intro st hb hc st' hst'
    have hls : loopStates cfg sinkOk start_time (e :: rest) st =
        st :: (match stepEvent cfg sinkOk start_time st e with
          | .cont st2 => loopStates cfg sinkOk start_time rest st2
          | .brk _ => []
          | .intr _ => []) := rfl
    rw [hls] at hst'
    rcases List.mem_cons.1 hst' with rfl | hmem
    · exact ⟨hb, hc⟩
    · have hpres := stepEvent_inv cfg sinkOk start_time st e hb hc
      cases hse : stepEvent cfg sinkOk start_time st e with
      | cont st2 =>
        rw [hse] at hmem hpres
        exact ih st2 hpres.1 hpres.2 st' hmem
      | brk st2 =>
        rw [hse] at hmem
        simp at hmem
      | intr st2 =>
        rw [hse] at hmem
        simp at hmem

/-- The size invariants hold at loop exit. -/
theorem loopRun_inv (cfg : Config) (sinkOk : Nat → Bool) (start_time : Nat) :
    ∀ (trace : List PollEvent) (st : LoopState), buffersOk st → callsOk st →
      buffersOk (loopExitState (loopRun cfg sinkOk start_time trace st)) ∧
        callsOk (loopExitState (loopRun cfg sinkOk start_time trace st)) := by
  intro trace
  induction trace with
  | nil => intro st hb hc; exact ⟨hb, hc⟩
  | cons e rest ih =>
    intro st hb hc
    have hpres := stepEvent_inv cfg sinkOk start_time st e hb hc
    have hlr : loopRun cfg sinkOk start_time (e :: rest) st =
        (match stepEvent cfg sinkOk start_time st e with
          | .cont st2 => loopRun cfg sinkOk start_time rest st2
          | .brk st2 => .brk st2
          | .intr st2 => .intr st2) := rfl
    rw [hlr]
    cases hse : stepEvent cfg sinkOk start_time st e with
    | cont st2 =>
      rw [hse] at hpres
      exact ih st2 hpres.1 hpres.2
    | brk st2 =>
      rw [hse] at hpres
      exact hpres
    | intr st2 =>
      rw [hse] at hpres
      exact hpres

/-- Recording one bounded insert call preserves the call-size bound. -/
theorem callsOk_insert (sinkOk : Nat → Bool) (st : LoopState) (t : String)
    (rows : List DataRow) (h : callsOk st) (hlen : rows.length ≤ batch_size) :
    callsOk (insert_batch sinkOk st t rows) := by
  intro c hc
  simp only [insert_batch, List.mem_append, List.mem_singleton] at hc
  rcases hc with hc | rfl
  · exact h c hc
  · simpa using hlen

theorem callsOk_insert_ite (sinkOk : Nat → Bool) (st : LoopState) (t : String)
    (rows : List DataRow) (p : Prop) [Decidable p]
    (h : callsOk st) (hlen : rows.length ≤ batch_size) :
    callsOk (if p then st else insert_batch sinkOk st t rows) := by
  split
  · exact h
  · exact callsOk_insert sinkOk st t rows h hlen

/-- The end-of-run drain only issues calls of below-threshold size. -/
theorem drainAll_callsOk (sinkOk : Nat → Bool) (st : LoopState)
    (hb : buffersOk st) (hc : callsOk st) : callsOk (drainAll sinkOk st) := by
  obtain ⟨hbc, hbp, hbo⟩ := hb
  unfold drainAll
  dsimp only
  refine callsOk_insert_ite _ _ _ _ _ ?_ ?_
  · refine callsOk_insert_ite _ _ _ _ _ ?_ ?_
    · refine callsOk_insert_ite _ _ _ _ _ hc ?_
      rw [getBuf_c]
      exact le_of_lt hbc
    · rw [getBuf_p]
      exact le_of_lt hbp
  · rw [getBuf_o]
    exact le_of_lt hbo

/-! ### Claim C2 -/

/-- C2: after any sequence of appends and flushes, every per-table
batch buffer has length strictly below the batch-size threshold (100)
at the start of each poll iteration — an append that reaches the
threshold is flushed and the buffer cleared before any further append —
and consequently no batch handed to the sink, during the loop or at the
drain, ever exceeds the threshold. -/
theorem claim_C2 (cfg : Config) (sinkOk : Nat → Bool) (start_time : Nat)
    (trace : List PollEvent) :
    (∀ st ∈ loopStates cfg sinkOk start_time trace initState, buffersOk st)
    ∧ callsOk (outcomeState (consumeAndLoad cfg sinkOk start_time trace)) := by
  have hb0 : buffersOk initState := by
    refine ⟨?_, ?_, ?_⟩ <;> simp [initState, batch_size]
  have hc0 : callsOk initState := by
    intro c hc
    simp [initState] at hc
  constructor
  · intro st hst
    exact (loopStates_inv cfg sinkOk start_time trace initState hb0 hc0 st hst).1
  · unfold consumeAndLoad
    have hinv := loopRun_inv cfg sinkOk start_time trace initState hb0 hc0
    cases hlr : loopRun cfg sinkOk start_time trace initState with
    | brk st2 =>
      rw [hlr] at hinv
      exact drainAll_callsOk sinkOk st2 hinv.1 hinv.2
    | intr st2 =>
      rw [hlr] at hinv
      exact hinv.2
    | exhausted st2 =>
      rw [hlr] at hinv
      exact hinv.2

/-- Witness for C2 on a concrete one-message trace. -/
theorem claim_C2_witness :
    buffersOk initState ∧
    callsOk (outcomeState (consumeAndLoad cfgRealtime alwaysOk 0
      [.message vmsg 1])) := by
  have h := claim_C2 cfgRealtime alwaysOk 0 [.message vmsg 1]
  exact ⟨h.1 initState (List.mem_cons_self _ _), h.2⟩

/-! ### Sink-failure indifference machinery -/

theorem mirrors_refl (st : LoopState) : mirrors st st :=
  ⟨rfl, rfl, rfl, rfl⟩

theorem mirrors_insert (s1 s2 : Nat → Bool) (st1 st2 : LoopState)
    (t : String) (rows : List DataRow) (h : mirrors st1 st2) :
    mirrors (insert_batch s1 st1 t rows) (insert_batch s2 st2 t rows) := by
  obtain ⟨h1, h2, h3, h4⟩ := h
  have h4' : List.map (fun c => (c.table, c.rows)) st1.calls =
      List.map (fun c => (c.table, c.rows)) st2.calls := h4
  exact ⟨h1, h2, h3, by simp [callSig, insert_batch, h4']⟩

theorem mirrors_flush (s1 s2 : Nat → Bool) (st1 st2 : LoopState)
    (t : String) (h : mirrors st1 st2) :
    mirrors (flushTable s1 st1 t) (flushTable s2 st2 t) := by
  obtain ⟨h1, h2, h3, h4⟩ := h
  have h4' : List.map (fun c => (c.table, c.rows)) st1.calls =
      List.map (fun c => (c.table, c.rows)) st2.calls := h4
  unfold flushTable
  dsimp only
  refine ⟨h1, ?_, h3, ?_⟩
  · simp only [insert_batch, h2]
  · simp [callSig, insert_batch, h4', h2]

theorem mirrors_keep (s1 s2 : Nat → Bool) (st1 st2 : LoopState)
    (tbl : String) (row : DataRow) (h : mirrors st1 st2) :
    mirrors (keepStep s1 st1 tbl row) (keepStep s2 st2 tbl row) := by
  obtain ⟨h1, h2, h3, h4⟩ := h
  unfold keepStep
  dsimp only
  rw [h2, h1]
  have hmid : mirrors
      { message_count := st2.message_count + 1,
        batch_data := setBuf st2.batch_data tbl (fun buf => buf ++ [row]),
        calls := st1.calls, processing_errors := st1.processing_errors }
      { message_count := st2.message_count + 1,
        batch_data := setBuf st2.batch_data tbl (fun buf => buf ++ [row]),
        calls := st2.calls, processing_errors := st2.processing_errors } :=
    ⟨rfl, rfl, h3, h4⟩
  split
  · exact mirrors_flush s1 s2 _ _ tbl hmid
  · exact hmid

theorem stepMessage_mirrors (cfg : Config) (s1 s2 : Nat → Bool)
    (st1 st2 : LoopState) (m : KafkaMessage) (now : Nat) (h : mirrors st1 st2) :
    stepOutTag (stepMessage cfg s1 st1 m now) =
      stepOutTag (stepMessage cfg s2 st2 m now)
    ∧ mirrors (stepOutState (stepMessage cfg s1 st1 m now))
        (stepOutState (stepMessage cfg s2 st2 m now)) := by
  obtain ⟨h1, h2, h3, h4⟩ := h
  unfold stepMessage
  cases hl : lookupTable m.topic with
  | none => exact ⟨rfl, h1, h2, h3, h4⟩
  | some tbl =>
    rcases hval : m.value with _ | rb
    · exact ⟨rfl, h1, h2, h3, h4⟩
    · cases rb with
      | invalid => exact ⟨rfl, h1, h2, by simp [stepOutState, h3], h4⟩
      | text s =>
        dsimp only
        cases hf : filterPayload s
        · exact ⟨rfl, h1, h2, h3, h4⟩
        · exact ⟨rfl, h1, h2, h3, h4⟩
        · exact ⟨rfl, h1, h2, h3, h4⟩
        · exact ⟨rfl, h1, h2, by simp [stepOutState, h3], h4⟩
        · dsimp only
          rw [h1]
          have hks := mirrors_keep s1 s2 st1 st2 tbl
            ⟨s, now, m.offset, m.partition⟩ ⟨h1, h2, h3, h4⟩
          split
          · exact ⟨rfl, hks⟩
          · exact ⟨rfl, hks⟩

theorem stepEvent_mirrors (cfg : Config) (s1 s2 : Nat → Bool)
    (start_time : Nat) (st1 st2 : LoopState) (e : PollEvent)
    (h : mirrors st1 st2) :
    stepOutTag (stepEvent cfg s1 start_time st1 e) =
      stepOutTag (stepEvent cfg s2 start_time st2 e)
    ∧ mirrors (stepOutState (stepEvent cfg s1 start_time st1 e))
        (stepOutState (stepEvent cfg s2 start_time st2 e)) := by
  cases e with
  | noMsg now =>
    by_cases hco : cfg.realtime = false ∧ truthyNat cfg.timeout_seconds = true ∧
        cfg.timeout_seconds.getD 0 < now - start_time
    · simp only [stepEvent, if_pos hco]
      exact ⟨rfl, h⟩
    · simp only [stepEvent, if_neg hco]
      exact ⟨rfl, h⟩
  | kerror b => exact ⟨rfl, h⟩
  | interrupt => exact ⟨rfl, h⟩
  | message m now => exact stepMessage_mirrors cfg s1 s2 st1 st2 m now h

theorem loopRun_mirrors (cfg : Config) (s1 s2 : Nat → Bool)
    (start_time : Nat) :
    ∀ (trace : List PollEvent) (st1 st2 : LoopState), mirrors st1 st2 →
      loopExitTag (loopRun cfg s1 start_time trace st1) =
        loopExitTag (loopRun cfg s2 start_time trace st2)
      ∧ mirrors (loopExitState (loopRun cfg s1 start_time trace st1))
          (loopExitState (loopRun cfg s2 start_time trace st2)) := by
  intro trace
  induction trace with
  | nil => intro st1 st2 h; exact ⟨rfl, h⟩
  | cons e rest ih =>
    intro st1 st2 h
    have hse := stepEvent_mirrors cfg s1 s2 start_time st1 st2 e h
    have hlr1 : loopRun cfg s1 start_time (e :: rest) st1 =
        (match stepEvent cfg s1 start_time st1 e with
          | .cont st' => loopRun cfg s1 start_time rest st'
          | .brk st' => .brk st'
          | .intr st' => .intr st') := rfl
    have hlr2 : loopRun cfg s2 start_time (e :: rest) st2 =
        (match stepEvent cfg s2 start_time st2 e with
          | .cont st' => loopRun cfg s2 start_time rest st'
          | .brk st' => .brk st'
          | .intr st' => .intr st') := rfl
    rw [hlr1, hlr2]
    cases he1 : stepEvent cfg s1 start_time st1 e with
    | cont st1' =>
      cases he2 : stepEvent cfg s2 start_time st2 e with
      | cont st2' =>
        rw [he1, he2] at hse
        exact ih st1' st2' hse.2
      | brk st2' =>
        rw [he1, he2] at hse
        cases hse.1
      | intr st2' =>
        rw [he1, he2] at hse
        cases hse.1
    | brk st1' =>
      cases he2 : stepEvent cfg s2 start_time st2 e with
      | cont st2' =>
        rw [he1, he2] at hse
        cases hse.1
      | brk st2' =>
        rw [he1, he2] at hse
        exact ⟨rfl, hse.2⟩
      | intr st2' =>
        rw [he1, he2] at hse
        cases hse.1
    | intr st1' =>
      cases he2 : stepEvent cfg s2 start_time st2 e with
      | cont st2' =>
        rw [he1, he2] at hse
        cases hse.1
      | brk st2' =>
        rw [he1, he2] at hse
        cases hse.1
      | intr st2' =>
        rw [he1, he2] at hse
        exact ⟨rfl, hse.2⟩

theorem mirrors_drain (s1 s2 : Nat → Bool) (st1 st2 : LoopState)
    (h : mirrors st1 st2) :
    mirrors (drainAll s1 st1) (drainAll s2 st2) := by
  have h2 := h.2.1
  unfold drainAll
  dsimp only
  rw [h2]
  have hm1 : mirrors
      (if (getBuf st2.batch_data "mongo_ecom_customers").isEmpty then st1
        else insert_batch s1 st1 "mongo_ecom_customers"
          (getBuf st2.batch_data "mongo_ecom_customers"))
      (if (getBuf st2.batch_data "mongo_ecom_customers").isEmpty then st2
        else insert_batch s2 st2 "mongo_ecom_customers"
          (getBuf st2.batch_data "mongo_ecom_customers")) := by
    split
    · exact h
    · exact mirrors_insert s1 s2 st1 st2 _ _ h
  have hm2 : mirrors
      (if (getBuf st2.batch_data "mongo_ecom_products").isEmpty then
          (if (getBuf st2.batch_data "mongo_ecom_customers").isEmpty then st1
            else insert_batch s1 st1 "mongo_ecom_customers"
              (getBuf st2.batch_data "mongo_ecom_customers"))
        else insert_batch s1
          (if (getBuf st2.batch_data "mongo_ecom_customers").isEmpty then st1
            else insert_batch s1 st1 "mongo_ecom_customers"
              (getBuf st2.batch_data "mongo_ecom_customers"))
          "mongo_ecom_products" (getBuf st2.batch_data "mongo_ecom_products"))
      (if (getBuf st2.batch_data "mongo_ecom_products").isEmpty then
          (if (getBuf st2.batch_data "mongo_ecom_customers").isEmpty then st2
            else insert_batch s2 st2 "mongo_ecom_customers"
              (getBuf st2.batch_data "mongo_ecom_customers"))
        else insert_batch s2
          (if (getBuf st2.batch_data "mongo_ecom_customers").isEmpty then st2
            else insert_batch s2 st2 "mongo_ecom_customers"
              (getBuf st2.batch_data "mongo_ecom_customers"))
          "mongo_ecom_products" (getBuf st2.batch_data "mongo_ecom_products")) := by
    split
    · exact hm1
    · exact mirrors_insert s1 s2 _ _ _ _ hm1
  split
  · exact hm2
  · exact mirrors_insert s1 s2 _ _ _ _ hm2

/-! ### Claim C5 -/

/-- C5: when a sink write for one batch fails, the batch's records are
discarded: `_insert_batch` merely records the failed attempt and the
buffer is cleared exactly as in the success case (nothing is requeued
or retried), the failure never propagates or terminates the run, and
the rest of the run is unaffected — control flow, message counts,
buffers, error counts and the full sequence of attempted batches are
identical whatever the sink answers, so subsequent batches are still
flushed. -/
theorem claim_C5 (cfg : Config) (start_time : Nat) (trace : List PollEvent)
    (s1 s2 : Nat → Bool) :
    (∀ (sinkOk : Nat → Bool) (st : LoopState) (tbl : String),
      tbl = "mongo_ecom_customers" ∨ tbl = "mongo_ecom_products" ∨
        tbl = "mongo_ecom_orders" →
      getBuf (flushTable sinkOk st tbl).batch_data tbl = []
      ∧ (flushTable sinkOk st tbl).calls =
          st.calls ++ [⟨tbl, getBuf st.batch_data tbl, sinkOk st.calls.length⟩])
    ∧ outcomeTag (consumeAndLoad cfg s1 start_time trace) =
        outcomeTag (consumeAndLoad cfg s2 start_time trace)
    ∧ mirrors (outcomeState (consumeAndLoad cfg s1 start_time trace))
        (outcomeState (consumeAndLoad cfg s2 start_time trace)) := by
  refine ⟨?_, ?_⟩
  · intro sinkOk st tbl htbl
    obtain rfl | rfl | rfl := htbl
    · exact ⟨rfl, rfl⟩
    · exact ⟨rfl, rfl⟩
    · exact ⟨rfl, rfl⟩
  · have hm := loopRun_mirrors cfg s1 s2 start_time trace initState initState
      (mirrors_refl _)
    unfold consumeAndLoad
    cases h1 : loopRun cfg s1 start_time trace initState with
    | brk st1' =>
      cases h2 : loopRun cfg s2 start_time trace initState with
      | brk st2' =>
        rw [h1, h2] at hm
        exact ⟨rfl, mirrors_drain s1 s2 st1' st2' hm.2⟩
      | intr st2' =>
        rw [h1, h2] at hm
        have := hm.1
        simp [loopExitTag] at this
      | exhausted st2' =>
        rw [h1, h2] at hm
        have := hm.1
        simp [loopExitTag] at this
    | intr st1' =>
      cases h2 : loopRun cfg s2 start_time trace initState with
      | brk st2' =>
        rw [h1, h2] at hm
        have := hm.1
        simp [loopExitTag] at this
      | intr st2' =>
        rw [h1, h2] at hm
        exact ⟨rfl, hm.2⟩
      | exhausted st2' =>
        rw [h1, h2] at hm
        have := hm.1
        simp [loopExitTag] at this
    | exhausted st1' =>
      cases h2 : loopRun cfg s2 start_time trace initState with
      | brk st2' =>
        rw [h1, h2] at hm
        have := hm.1
        simp [loopExitTag] at this
      | intr st2' =>
        rw [h1, h2] at hm
        have := hm.1
        simp [loopExitTag] at this
      | exhausted st2' =>
        rw [h1, h2] at hm
        exact ⟨rfl, hm.2⟩

/-- Witness for C5 at a concrete failing sink. -/
theorem claim_C5_witness :
    getBuf (flushTable (fun _ => false) initState
        "mongo_ecom_customers").batch_data "mongo_ecom_customers" = []
    ∧ outcomeTag (consumeAndLoad cfgBatch (fun _ => false) 0 [.message vmsg 1]) =
        outcomeTag (consumeAndLoad cfgBatch alwaysOk 0 [.message vmsg 1]) := by
  have h := claim_C5 cfgBatch 0 [.message vmsg 1] (fun _ => false) alwaysOk
  exact ⟨(h.1 (fun _ => false) initState "mongo_ecom_customers" (Or.inl rfl)).1,
    h.2.1⟩

/-! ### Claim C4 -/

theorem mem_calls_insert_self (sinkOk : Nat → Bool) (st : LoopState)
    (t : String) (rows : List DataRow) :
    SinkCall.mk t rows (sinkOk st.calls.length) ∈
      (insert_batch sinkOk st t rows).calls := by
  simp [insert_batch]

theorem mem_calls_insert_mono (sinkOk : Nat → Bool) (st : LoopState)
    (t : String) (rows : List DataRow) (c : SinkCall) (h : c ∈ st.calls) :
    c ∈ (insert_batch sinkOk st t rows).calls := by
  simp only [insert_batch, List.mem_append]
  exact Or.inl h

/-- The end-of-run drain issues one insert call for every non-empty
buffer, carrying exactly that buffer's rows. -/
theorem drainAll_flushes (sinkOk : Nat → Bool) (st : LoopState) (tbl : String)
    (htbl : tbl = "mongo_ecom_customers" ∨ tbl = "mongo_ecom_products" ∨
      tbl = "mongo_ecom_orders")
    (hne : getBuf st.batch_data tbl ≠ []) :
    ∃ ok, SinkCall.mk tbl (getBuf st.batch_data tbl) ok ∈
      (drainAll sinkOk st).calls := by
  obtain rfl | rfl | rfl := htbl
  · refine ⟨sinkOk st.calls.length, ?_⟩
    unfold drainAll
    dsimp only
    have hne' : ¬((getBuf st.batch_data "mongo_ecom_customers").isEmpty = true) := by
      simpa [List.isEmpty_iff] using hne
    rw [if_neg hne']
    split
    · split
      · exact mem_calls_insert_self sinkOk st _ _
      · exact mem_calls_insert_mono _ _ _ _ _ (mem_calls_insert_self sinkOk st _ _)
    · split
      · exact mem_calls_insert_mono _ _ _ _ _ (mem_calls_insert_self sinkOk st _ _)
      · exact mem_calls_insert_mono _ _ _ _ _
          (mem_calls_insert_mono _ _ _ _ _ (mem_calls_insert_self sinkOk st _ _))
  · unfold drainAll
    dsimp only
    have hne' : ¬((getBuf st.batch_data "mongo_ecom_products").isEmpty = true) := by
      simpa [List.isEmpty_iff] using hne
    rw [if_neg hne']
    split
    · split
      · exact ⟨_, mem_calls_insert_self sinkOk st _ _⟩
      · exact ⟨_, mem_calls_insert_self sinkOk _ _ _⟩
    · split
      · exact ⟨_, mem_calls_insert_mono _ _ _ _ _ (mem_calls_insert_self sinkOk st _ _)⟩
      · exact ⟨_, mem_calls_insert_mono _ _ _ _ _ (mem_calls_insert_self sinkOk _ _ _)⟩
  · unfold drainAll
    dsimp only
    have hne' : ¬((getBuf st.batch_data "mongo_ecom_orders").isEmpty = true) := by
      simpa [List.isEmpty_iff] using hne
    rw [if_neg hne']
    exact ⟨_, mem_calls_insert_self sinkOk _ _ _⟩

/-- C4 (amended): when the loop terminates by `break` — bounded-mode
timeout or message limit — `consume_and_load` drains: every remaining
non-empty per-table buffer is handed to the sink before the function
returns.  When a `KeyboardInterrupt` arrives instead (operator
cancellation in continuous mode), the exception propagates past the
drain loop, so the run ends without draining and
buffered-but-unflushed records are discarded; see the
counterexample.  (As stated the claim is false for the cancellation
path.) -/
theorem claim_C4 (cfg : Config) (sinkOk : Nat → Bool) (start_time : Nat)
    (trace : List PollEvent) (st : LoopState)
    (hbrk : loopRun cfg sinkOk start_time trace initState = .brk st) :
    consumeAndLoad cfg sinkOk start_time trace = .finished (drainAll sinkOk st)
    ∧ (∀ tbl, (tbl = "mongo_ecom_customers" ∨ tbl = "mongo_ecom_products" ∨
          tbl = "mongo_ecom_orders") →
        getBuf st.batch_data tbl ≠ [] →
        ∃ ok, SinkCall.mk tbl (getBuf st.batch_data tbl) ok ∈
          (drainAll sinkOk st).calls)
    ∧ (∀ (trace' : List PollEvent) (st' : LoopState),
        loopRun cfg sinkOk start_time trace' initState = .intr st' →
        consumeAndLoad cfg sinkOk start_time trace' = .interrupted st') := by
  refine ⟨?_, ?_, ?_⟩
  · unfold consumeAndLoad
    rw [hbrk]
  · intro tbl htbl hne
    exact drainAll_flushes sinkOk st tbl htbl hne
  · intro trace' st' hintr
    unfold consumeAndLoad
    rw [hintr]

/-- Witness for C4 on a concrete bounded run that times out with one
buffered record. -/
theorem claim_C4_witness :
    ∃ ok, SinkCall.mk "mongo_ecom_customers" [⟨validPayload, 1, 7, 0⟩] ok ∈
      (outcomeState (consumeAndLoad cfgBatch alwaysOk 0
        [.message vmsg 1, .noMsg 61])).calls := by
  have h := claim_C4 cfgBatch alwaysOk 0 [.message vmsg 1, .noMsg 61]
    { message_count := 1,
      batch_data := ⟨[⟨validPayload, 1, 7, 0⟩], [], []⟩,
      calls := [], processing_errors := 0 } rfl
  have h2 := h.2.1 "mongo_ecom_customers" (Or.inl rfl) (by decide)
  rw [h.1]
  exact h2

/-- Counterexample to C4 as stated: in continuous mode, a
`KeyboardInterrupt` delivered at the poll after one kept message ends
the run with the record still buffered and no insert call ever made —
`except Exception` does not catch `KeyboardInterrupt`, so the drain
loop at lines 199–202 is skipped and the buffered record is
discarded. -/
theorem claim_C4_counterexample :
    consumeAndLoad cfgRealtime alwaysOk 0 [.message vmsg 1, .interrupt] =
      .interrupted
        { message_count := 1,
          batch_data := ⟨[⟨validPayload, 1, 7, 0⟩], [], []⟩,
          calls := [], processing_errors := 0 }
    ∧ (outcomeState (consumeAndLoad cfgRealtime alwaysOk 0
        [.message vmsg 1, .interrupt])).batch_data.customers ≠ []
    ∧ (outcomeState (consumeAndLoad cfgRealtime alwaysOk 0
        [.message vmsg 1, .interrupt])).calls = [] := by
  refine ⟨rfl, ?_, rfl⟩
  decide

/-! ### Row conservation: stored rows never exceed processed messages -/

theorem storedCount_le_flushedRows (st : LoopState) :
    storedCount st ≤ flushedRows st := by
  suffices h : ∀ l : List SinkCall,
      ((l.filter (fun c => c.ok)).map (fun c => c.rows.length)).sum ≤
        (l.map (fun c => c.rows.length)).sum from h st.calls
  intro l
  induction l with
  | nil => simp
  | cons c t ih =>
    by_cases hok : c.ok = true
    · simp only [List.filter_cons, hok, if_true, List.map_cons, List.sum_cons]
      omega
    · simp [List.filter_cons, hok]
      omega

theorem flushedRows_insert (sinkOk : Nat → Bool) (st : LoopState) (t : String)
    (rows : List DataRow) :
    flushedRows (insert_batch sinkOk st t rows) = flushedRows st + rows.length := by
  simp [flushedRows, insert_batch]

theorem keepStep_cons (sinkOk : Nat → Bool) (st : LoopState) (tbl : String)
    (row : DataRow)
    (htbl : tbl = "mongo_ecom_customers" ∨ tbl = "mongo_ecom_products" ∨
      tbl = "mongo_ecom_orders") :
    flushedRows (keepStep sinkOk st tbl row) +
        bufferedRows (keepStep sinkOk st tbl row) =
      flushedRows st + bufferedRows st + 1 := by
  obtain rfl | rfl | rfl := htbl
  · unfold keepStep
    dsimp only
    rw [setBuf_c, getBuf_c]
    split
    · simp [flushTable, flushedRows_insert, bufferedRows, getBuf_c, setBuf_c,
        insert_batch, flushedRows]
      omega
    · simp [bufferedRows, flushedRows]
      omega
  · unfold keepStep
    dsimp only
    rw [setBuf_p, getBuf_p]
    split
    · simp [flushTable, flushedRows_insert, bufferedRows, getBuf_p, setBuf_p,
        insert_batch, flushedRows]
      omega
    · simp [bufferedRows, flushedRows]
      omega
  · unfold keepStep
    dsimp only
    rw [setBuf_o, getBuf_o]
    split
    · simp [flushTable, flushedRows_insert, bufferedRows, getBuf_o, setBuf_o,
        insert_batch, flushedRows]
      omega
    · simp [bufferedRows, flushedRows]
      omega

theorem stepEvent_cons (cfg : Config) (sinkOk : Nat → Bool) (start_time : Nat)
    (st : LoopState) (e : PollEvent)
    (h : flushedRows st + bufferedRows st = st.message_count) :
    flushedRows (stepOutState (stepEvent cfg sinkOk start_time st e)) +
        bufferedRows (stepOutState (stepEvent cfg sinkOk start_time st e)) =
      (stepOutState (stepEvent cfg sinkOk start_time st e)).message_count := by
  cases e with
  | noMsg now =>
    by_cases hco : cfg.realtime = false ∧ truthyNat cfg.timeout_seconds = true ∧
        cfg.timeout_seconds.getD 0 < now - start_time
    · simp only [stepEvent, if_pos hco]
      exact h
    · simp only [stepEvent, if_neg hco]
      exact h
  | kerror b => exact h
  | interrupt => exact h
  | message m now =>
    show flushedRows (stepOutState (stepMessage cfg sinkOk st m now)) +
        bufferedRows (stepOutState (stepMessage cfg sinkOk st m now)) =
      (stepOutState (stepMessage cfg sinkOk st m now)).message_count
    cases hl : lookupTable m.topic with
    | none =>
      unfold stepMessage
      rw [hl]
      exact h
    | some tbl =>
      unfold stepMessage
      rw [hl]
      rcases hval : m.value with _ | rb
      · exact h
      · cases rb with
        | invalid => exact h
        | text s =>
          dsimp only
          split
          · exact h
          · exact h
          · exact h
          · exact h
          · have hks := keepStep_cons sinkOk st tbl
              ⟨s, now, m.offset, m.partition⟩ (lookupTable_cases hl)
            have hkc := keepStep_count sinkOk st tbl
              ⟨s, now, m.offset, m.partition⟩
            split
            · simp only [stepOutState]
              omega
            · simp only [stepOutState]
              omega

theorem loopRun_cons (cfg : Config) (sinkOk : Nat → Bool) (start_time : Nat) :
    ∀ (trace : List PollEvent) (st : LoopState),
      flushedRows st + bufferedRows st = st.message_count →
      flushedRows (loopExitState (loopRun cfg sinkOk start_time trace st)) +
          bufferedRows (loopExitState (loopRun cfg sinkOk start_time trace st)) =
        (loopExitState (loopRun cfg sinkOk start_time trace st)).message_count := by
  intro trace
  induction trace with
  | nil => intro st h; exact h
  | cons e rest ih =>
    intro st h
    have hpres := stepEvent_cons cfg sinkOk start_time st e h
    have hlr : loopRun cfg sinkOk start_time (e :: rest) st =
        (match stepEvent cfg sinkOk start_time st e with
          | .cont st2 => loopRun cfg sinkOk start_time rest st2
          | .brk st2 => .brk st2
          | .intr st2 => .intr st2) := rfl
    rw [hlr]
    cases hse : stepEvent cfg sinkOk start_time st e with
    | cont st2 =>
      rw [hse] at hpres
      exact ih st2 hpres
    | brk st2 =>
      rw [hse] at hpres
      exact hpres
    | intr st2 =>
      rw [hse] at hpres
      exact hpres

theorem drainAll_flushedRows (sinkOk : Nat → Bool) (st : LoopState) :
    flushedRows (drainAll sinkOk st) = flushedRows st + bufferedRows st := by
  unfold drainAll
  dsimp only
  rw [getBuf_c, getBuf_p, getBuf_o]
  by_cases hc : st.batch_data.customers.isEmpty = true <;>
    by_cases hp : st.batch_data.products.isEmpty = true <;>
      by_cases ho : st.batch_data.orders.isEmpty = true <;>
        simp_all [flushedRows_insert, bufferedRows, List.isEmpty_iff] <;>
          omega

theorem drainAll_count (sinkOk : Nat → Bool) (st : LoopState) :
    (drainAll sinkOk st).message_count = st.message_count := by
  unfold drainAll
  dsimp only
  split
  · split
    · split
      · rfl
      · rfl
    · split
      · rfl
      · rfl
  · split
    · split
      · rfl
      · rfl
    · split
      · rfl
      · rfl

/-- Stored rows never exceed the processed-message count, on any run
outcome. -/
theorem consumeAndLoad_stored_le (cfg : Config) (sinkOk : Nat → Bool)
    (start_time : Nat) (trace : List PollEvent) :
    storedCount (outcomeState (consumeAndLoad cfg sinkOk start_time trace)) ≤
      (outcomeState (consumeAndLoad cfg sinkOk start_time trace)).message_count := by
  have hinv := loopRun_cons cfg sinkOk start_time trace initState (by rfl)
  unfold consumeAndLoad
  cases hlr : loopRun cfg sinkOk start_time trace initState with
  | brk st2 =>
    rw [hlr] at hinv
    simp only [loopExitState] at hinv
    have h1 := storedCount_le_flushedRows (drainAll sinkOk st2)
    have h2 := drainAll_flushedRows sinkOk st2
    have h3 := drainAll_count sinkOk st2
    show storedCount (drainAll sinkOk st2) ≤ (drainAll sinkOk st2).message_count
    omega
  | intr st2 =>
    rw [hlr] at hinv
    simp only [loopExitState] at hinv
    have h1 := storedCount_le_flushedRows st2
    show storedCount st2 ≤ st2.message_count
    omega
  | exhausted st2 =>
    rw [hlr] at hinv
    simp only [loopExitState] at hinv
    have h1 := storedCount_le_flushedRows st2
    show storedCount st2 ≤ st2.message_count
    omega

/-! ### Claim C3 -/

/-- Feeding kept messages in bounded mode with cap 50 breaks the loop
exactly on the message that brings the kept-message count to 50,
leaving any further supply unconsumed. -/
theorem loopRun_valid_brk (sinkOk : Nat → Bool) :
    ∀ (k : Nat) (st : LoopState) (rest : List PollEvent), 0 < k →
      st.message_count + k = 50 →
      ∃ st', loopRun cfgBounded50 sinkOk 0
          (List.replicate k (.message vmsg 5) ++ rest) st = .brk st'
        ∧ st'.message_count = 50 := by
  intro k
  induction k with
  | zero =>
    intro st rest h0 hsum
    exact absurd h0 (lt_irrefl 0)
  | succ k ih =>
    intro st rest h0 hsum
    rw [List.replicate_succ, List.cons_append]
    have hkeep := stepMessage_keep cfgBounded50 sinkOk st vmsg 5
      "mongo_ecom_customers" validPayload rfl rfl rfl
    have hcond : (cfgBounded50.realtime = false ∧
        truthyNat cfgBounded50.max_messages = true ∧
        cfgBounded50.max_messages.getD 0 ≤ st.message_count + 1) ↔
        50 ≤ st.message_count + 1 := by
      simp [cfgBounded50, truthyNat]
    have hlr : loopRun cfgBounded50 sinkOk 0
        (.message vmsg 5 :: (List.replicate k (.message vmsg 5) ++ rest)) st =
        (match stepMessage cfgBounded50 sinkOk st vmsg 5 with
          | .cont st2 => loopRun cfgBounded50 sinkOk 0
              (List.replicate k (.message vmsg 5) ++ rest) st2
          | .brk st2 => .brk st2
          | .intr st2 => .intr st2) := rfl
    rw [hlr, hkeep]
    by_cases hmax : 50 ≤ st.message_count + 1
    · rw [if_pos (hcond.mpr hmax)]
      refine ⟨_, rfl, ?_⟩
      rw [keepStep_count]
      omega
    · rw [if_neg (fun hco => hmax (hcond.mp hco))]
      dsimp only
      apply ih
      · omega
      · rw [keepStep_count]
        omega

/-- C3 (amended): in bounded mode with a message cap of 50 and a time
cap that never interferes, fed an unbounded supply of valid messages,
the loop terminates and begins draining exactly after the 50th *kept*
message — the cap compares `message_count`, which is incremented only
for kept messages — and the total number of stored records is at
most 50.  (As literally stated the claim is false: dropped messages do
not count toward the cap; see the counterexample.) -/
theorem claim_C3 (sinkOk : Nat → Bool) (rest : List PollEvent) :
    ∃ st', loopRun cfgBounded50 sinkOk 0
        (List.replicate 50 (.message vmsg 5) ++ rest) initState = .brk st'
      ∧ st'.message_count = 50
      ∧ consumeAndLoad cfgBounded50 sinkOk 0
          (List.replicate 50 (.message vmsg 5) ++ rest) =
          .finished (drainAll sinkOk st')
      ∧ storedCount (drainAll sinkOk st') ≤ 50 := by
  obtain ⟨st', hbrk, hmc⟩ := loopRun_valid_brk sinkOk 50 initState rest
    (by omega) (by simp [initState])
  have hfin : consumeAndLoad cfgBounded50 sinkOk 0
      (List.replicate 50 (.message vmsg 5) ++ rest) =
      .finished (drainAll sinkOk st') := by
    unfold consumeAndLoad
    rw [hbrk]
  refine ⟨st', hbrk, hmc, hfin, ?_⟩
  have hle := consumeAndLoad_stored_le cfgBounded50 sinkOk 0
    (List.replicate 50 (.message vmsg 5) ++ rest)
  rw [hfin] at hle
  simp only [outcomeState] at hle
  rw [drainAll_count, hmc] at hle
  exact hle

/-- Counterexample to C3 as stated: with cap 50, a supply whose first
message is a tombstone followed by 49 valid messages makes 50 processed
messages, yet after all 50 the loop is still polling (the tombstone was
dropped without incrementing `message_count`, which stands at 49) — the
driver has not begun draining after the 50th processed message. -/
theorem claim_C3_counterexample :
    loopRun cfgBounded50 alwaysOk 0
      (.message tombMsg 2 :: List.replicate 49 (.message vmsg 5)) initState =
      .exhausted
        { message_count := 49,
          batch_data := ⟨List.replicate 49 ⟨validPayload, 5, 7, 0⟩, [], []⟩,
          calls := [], processing_errors := 0 } := by
  rfl

/-! ### Claim C6 -/

set_option maxHeartbeats 16000000 in
set_option maxRecDepth 40000 in
/-- C6: feeding 250 well-formed non-tombstone messages for the mapped
customers topic (batch threshold 100) through a bounded run that then
times out makes the sink receive exactly three insert calls for that
table — two full batches of 100 records during the loop and one final
batch of 50 records at the end-of-run drain — and the total number of
records stored is 250. -/
theorem claim_C6 :
    outcomeTag (consumeAndLoad cfgBatch alwaysOk 0
        (List.replicate 250 (.message vmsg 5) ++ [.noMsg 61])) = 0
    ∧ ((outcomeState (consumeAndLoad cfgBatch alwaysOk 0
        (List.replicate 250 (.message vmsg 5) ++ [.noMsg 61]))).calls.map
          (fun c => (c.table, c.rows.length, c.ok))) =
        [("mongo_ecom_customers", 100, true),
          ("mongo_ecom_customers", 100, true),
          ("mongo_ecom_customers", 50, true)]
    ∧ (loopExitState (loopRun cfgBatch alwaysOk 0
        (List.replicate 250 (.message vmsg 5) ++ [.noMsg 61])
        initState)).calls.length = 2
    ∧ storedCount (outcomeState (consumeAndLoad cfgBatch alwaysOk 0
        (List.replicate 250 (.message vmsg 5) ++ [.noMsg 61]))) = 250
    ∧ (outcomeState (consumeAndLoad cfgBatch alwaysOk 0
        (List.replicate 250 (.message vmsg 5) ++ [.noMsg 61]))).message_count =
        250 :=
  ⟨rfl, rfl, rfl, rfl, rfl⟩

/-! ### Claim C8 -/

/-- C8 (amended): when the broker or sink connectivity check fails,
`main` prints the failure and returns before subscribing — nothing is
consumed and no insert is issued — but it returns via a plain `return`,
so the process exit status is 0, not non-zero; and a destination-table
creation failure does not abort the run at all: `create_tables` logs
each failure and `main` proceeds to streaming regardless.  (As stated
the claim is false on both points; see the counterexample.) -/
theorem claim_C8 (env : StartupEnv) (cfg : Config) (sinkOk : Nat → Bool)
    (start_time : Nat) (trace : List PollEvent) :
    (test_connections env = false →
      mainRun env cfg sinkOk start_time trace = .connFail 0
      ∧ mainConsumed (mainRun env cfg sinkOk start_time trace) = 0
      ∧ mainInserts (mainRun env cfg sinkOk start_time trace) = 0
      ∧ mainExitCode (mainRun env cfg sinkOk start_time trace) = 0)
    ∧ (env.clickhouseOk = false ∨ env.kafkaOk = false →
        test_connections env = false)
    ∧ (test_connections env = true →
        mainRun env cfg sinkOk start_time trace =
          .ran (create_tables env) (consumeAndLoad cfg sinkOk start_time trace) 0
        ∧ mainExitCode (mainRun env cfg sinkOk start_time trace) = 0) := by
  refine ⟨fun hf => ?_, fun hor => ?_, fun ht => ?_⟩
  · have hm : mainRun env cfg sinkOk start_time trace = .connFail 0 := by
      unfold mainRun
      rw [if_pos hf]
    exact ⟨hm, by rw [hm]; rfl, by rw [hm]; rfl, by rw [hm]; rfl⟩
  · unfold test_connections
    rcases hor with h | h <;> simp [h]
  · have hm : mainRun env cfg sinkOk start_time trace =
        .ran (create_tables env) (consumeAndLoad cfg sinkOk start_time trace) 0 := by
      unfold mainRun
      rw [if_neg (by simp [ht])]
    exact ⟨hm, by rw [hm]; rfl⟩

/-- Witness for C8 at a concrete environment with an unreachable
sink. -/
theorem claim_C8_witness :
    mainRun ⟨false, true, [true, true, true]⟩ cfgBatch alwaysOk 0 [] =
      .connFail 0
    ∧ mainConsumed (mainRun ⟨false, true, [true, true, true]⟩ cfgBatch
        alwaysOk 0 []) = 0 := by
  have h := (claim_C8 ⟨false, true, [true, true, true]⟩ cfgBatch alwaysOk 0 []).1
    rfl
  exact ⟨h.1, h.2.1⟩

/-- Counterexample to C8 as stated: with the sink unreachable, `main`
returns with process exit status 0 — not non-zero — and with working
connections but all three `CREATE TABLE` commands failing, `main` does
not exit before subscribing: the pipeline runs anyway (here consuming
one message), the three failures merely logged. -/
theorem claim_C8_counterexample :
    mainExitCode (mainRun ⟨false, true, [true, true, true]⟩ cfgBatch
        alwaysOk 0 []) = 0
    ∧ mainRun ⟨true, true, [false, false, false]⟩ cfgBatch alwaysOk 0
        [.message vmsg 1, .noMsg 61] =
      .ran 3 (consumeAndLoad cfgBatch alwaysOk 0
        [.message vmsg 1, .noMsg 61]) 0
    ∧ mainConsumed (mainRun ⟨true, true, [false, false, false]⟩ cfgBatch
        alwaysOk 0 [.message vmsg 1, .noMsg 61]) = 1 :=
  ⟨rfl, rfl, rfl⟩

end CDCBridge
